import Mathlib

/-!
Shallow embedding of the clacks RPC framework core (package model, simple
marshaller, command digest, server dispatch, handler framing and the adapter
pipeline), together with theorems settling the specification claims.

Python strings are modelled as lists of Unicode code points (`PyStr`),
byte strings as lists of naturals below 256 (`PyBytes`).  Python-level
dictionaries are association lists; fallible Python code returns
`Option`/`Except`.
-/

set_option maxHeartbeats 1000000
set_option maxRecDepth 10000

namespace Clacks

/-- A Python `str`, as its list of Unicode code points. -/
abbrev PyStr := List Nat

/-- A Python `bytes` value: a list of byte values. -/
abbrev PyBytes := List Nat

/-- Convert a Lean string literal to the code-point model of a Python string. -/
def pystr (s : String) : PyStr := s.data.map Char.toNat

/-- Whether a string starts with the given code point. -/
def headIs (a : Nat) : PyStr → Bool
  | x :: _ => x = a
  | [] => false

/-- Whether a string starts with the two given code points. -/
def head2Is (a b : Nat) : PyStr → Bool
  | x :: y :: _ => x = a ∧ y = b
  | _ => false

/-- Python values that can appear in a package payload.  `float` values are
outside the model (floating point); every other type handled by the simple
marshaller is present. -/
inductive PyVal where
  | none : PyVal
  | bool (b : Bool) : PyVal
  | int (n : Int) : PyVal
  | str (s : PyStr) : PyVal
  | list (xs : List PyVal) : PyVal
  | tuple (xs : List PyVal) : PyVal
  | dict (kvs : List (PyStr × PyVal)) : PyVal

/-- A Python dict with string keys, as an association list in insertion order. -/
abbrev PyDict := List (PyStr × PyVal)

/-- `d[k]`-style lookup on an association-list dict (`dict.get`). -/
def dictGet (d : PyDict) (k : PyStr) : Option PyVal :=
  (d.find? (fun kv => kv.1 = k)).map (·.2)

/-- `d[k] = v` on an association-list dict: replace in place if the key is
present (Python dicts keep the original slot), append otherwise. -/
def dictSet (d : PyDict) (k : PyStr) (v : PyVal) : PyDict :=
  if d.any (fun kv => kv.1 = k) then
    d.map (fun kv => if kv.1 = k then (k, v) else kv)
  else
    d ++ [(k, v)]

/-- `del d[k]` on an association-list dict. -/
def dictDel (d : PyDict) (k : PyStr) : PyDict :=
  d.filter (fun kv => ¬ kv.1 = k)

/-! ## Byte-level utilities shared by the marshaller and the package model

These model the Python primitives used by `src/core/marshaller/marshallers/`
`simple.py` and `src/core/package.py`: `bytes.hex()`, `bytearray.fromhex`,
`str.encode('utf-8')` / `bytes.decode('utf-8')`, `str(int)` / `int(str)`,
`str.splitlines`, `str.split('/')` and `str.strip('\n')`. -/

/-- Lowercase hexadecimal digit for a value below 16 (as in `bytes.hex()`). -/
def hexDigit (n : Nat) : Nat :=
  if n < 10 then 48 + n else 87 + n

/-- `bytes.hex()`: two lowercase hex digits per byte. -/
def bytesToHex (bs : PyBytes) : PyStr :=
  (bs.map (fun b => [hexDigit (b / 16), hexDigit (b % 16)])).flatten

/-- Numeric value of one hexadecimal digit character (either case), as
accepted by `bytearray.fromhex`. -/
def hexDigitVal (c : Nat) : Option Nat :=
  if 48 ≤ c ∧ c ≤ 57 then some (c - 48)
  else if 97 ≤ c ∧ c ≤ 102 then some (c - 87)
  else if 65 ≤ c ∧ c ≤ 70 then some (c - 55)
  else none

/-- `bytearray.fromhex`: pairs of hex digits, with ASCII spaces permitted
between byte pairs; anything else fails (`ValueError`). -/
def tryFromHex : PyStr → Option PyBytes
  | [] => some []
  | c1 :: rest1 =>
      if c1 = 32 then tryFromHex rest1
      else
        match rest1 with
        | c2 :: rest =>
            match hexDigitVal c1, hexDigitVal c2 with
            | some h, some l => (tryFromHex rest).map (fun bs => (16 * h + l) :: bs)
            | _, _ => Option.none
        | [] => Option.none

/-- UTF-8 encoding of one code point by the standard bit layout.  Python's
`str.encode('utf-8')` raises on surrogates; the round-trip theorems restrict
to Unicode scalar values, where this is exact. -/
def utf8EncodeChar (c : Nat) : List Nat :=
  if c < 128 then [c]
  else if c < 2048 then [192 + c / 64, 128 + c % 64]
  else if c < 65536 then [224 + c / 4096, 128 + (c / 64) % 64, 128 + c % 64]
  else [240 + c / 262144, 128 + (c / 4096) % 64, 128 + (c / 64) % 64, 128 + c % 64]

/-- `str.encode('utf-8')`. -/
def utf8Encode (s : PyStr) : PyBytes :=
  (s.map utf8EncodeChar).flatten

/-- Whether a byte is a UTF-8 continuation byte. -/
def isCont (b : Nat) : Bool :=
  128 ≤ b ∧ b < 192

mutual

/-- `bytes.decode('utf-8')`: strict decoding, rejecting stray continuation
bytes, truncated sequences, overlong forms, surrogates and values beyond
`0x10FFFF`, as CPython does. -/
def utf8Decode : PyBytes → Option PyStr
  | [] => some []
  | b :: rest =>
      if b < 128 then (utf8Decode rest).map (fun s => b :: s)
      else if b < 194 then Option.none
      else if b < 224 then utf8Dec2 b rest
      else if b < 240 then utf8Dec3 b rest
      else if b < 245 then utf8Dec4 b rest
      else Option.none

/-- Continuation of a two-byte UTF-8 sequence. -/
def utf8Dec2 (b : Nat) : PyBytes → Option PyStr
  | b1 :: rest2 =>
      if isCont b1 then
        (utf8Decode rest2).map (fun s => ((b - 192) * 64 + (b1 - 128)) :: s)
      else Option.none
  | [] => Option.none

/-- Continuation of a three-byte UTF-8 sequence (overlong forms and
surrogates rejected). -/
def utf8Dec3 (b : Nat) : PyBytes → Option PyStr
  | b1 :: b2 :: rest3 =>
      if isCont b1 ∧ isCont b2 then
        let c := (b - 224) * 4096 + (b1 - 128) * 64 + (b2 - 128)
        if 2048 ≤ c ∧ ¬ (55296 ≤ c ∧ c ≤ 57343) then
          (utf8Decode rest3).map (fun s => c :: s)
        else Option.none
      else Option.none
  | _ => Option.none

/-- Continuation of a four-byte UTF-8 sequence (overlong forms and values
beyond `0x10FFFF` rejected). -/
def utf8Dec4 (b : Nat) : PyBytes → Option PyStr
  | b1 :: b2 :: b3 :: rest4 =>
      if isCont b1 ∧ isCont b2 ∧ isCont b3 then
        let c := (b - 240) * 262144 + (b1 - 128) * 4096 + (b2 - 128) * 64 + (b3 - 128)
        if 65536 ≤ c ∧ c < 1114112 then
          (utf8Decode rest4).map (fun s => c :: s)
        else Option.none
      else Option.none
  | _ => Option.none

end

/-- A Unicode scalar value: a code point that `'utf-8'` round-trips. -/
def IsScalar (c : Nat) : Prop :=
  c < 1114112 ∧ ¬ (55296 ≤ c ∧ c ≤ 57343)

/-- A string of Unicode scalar values. -/
def ScalarStr (s : PyStr) : Prop :=
  ∀ c ∈ s, IsScalar c

/-- Fuel-driven digit extraction; any fuel at least `n` is exact. -/
def natToDigitsF : Nat → Nat → PyStr
  | 0, n => [48 + n % 10]
  | f + 1, n => if n < 10 then [48 + n] else natToDigitsF f (n / 10) ++ [48 + n % 10]

/-- Decimal digits of a natural number, most significant first (`str(n)`). -/
def natToDigits (n : Nat) : PyStr :=
  natToDigitsF n n

/-- `str(n)` for a Python integer. -/
def intToStr : Int → PyStr
  | Int.ofNat n => natToDigits n
  | Int.negSucc m => 45 :: natToDigits (m + 1)

/-- Accumulate decimal digit characters; fails on a non-digit or on the
empty string. -/
def digitsToNat? (ds : PyStr) : Option Nat :=
  match ds with
  | [] => Option.none
  | _ =>
      ds.foldlM
        (fun acc c =>
          if 48 ≤ c ∧ c ≤ 57 then some (acc * 10 + (c - 48)) else Option.none)
        0

/-- `int(s)` on a string: surrounding ASCII whitespace is ignored, one
optional sign, then decimal digits; anything else raises `ValueError`. -/
def pyIntParse (s : PyStr) : Option Int :=
  let t := (((s.dropWhile (fun c => c = 32)).reverse.dropWhile (fun c => c = 32)).reverse)
  if headIs 43 t then (digitsToNat? (t.drop 1)).map Int.ofNat
  else if headIs 45 t then (digitsToNat? (t.drop 1)).map (fun n => -(n : Int))
  else (digitsToNat? t).map Int.ofNat

/-- The code points at which `str.splitlines` breaks. -/
def isLineBreak (c : Nat) : Bool :=
  c = 10 ∨ c = 13 ∨ c = 11 ∨ c = 12 ∨ c = 28 ∨ c = 29 ∨ c = 30 ∨
    c = 133 ∨ c = 8232 ∨ c = 8233

/-- `str.strip('\n')`: remove leading and trailing newline characters. -/
def stripNl (s : PyStr) : PyStr :=
  ((s.dropWhile (fun c => c = 10)).reverse.dropWhile (fun c => c = 10)).reverse

/-- Split the first line off a string at the first line boundary
(`\r\n` counting as one boundary), keeping the remainder when a boundary
was found. -/
def takeLine : PyStr → PyStr × Option PyStr
  | [] => ([], Option.none)
  | c :: rest =>
      if c = 13 ∧ headIs 10 rest then ([], some (rest.drop 1))
      else if isLineBreak c then ([], some rest)
      else
        let (l, r) := takeLine rest
        (c :: l, r)

/-- Fuel-driven worker for `splitlines` (any fuel at least the string
length is exact). -/
def splitlinesF : Nat → PyStr → List PyStr
  | _, [] => []
  | 0, _ :: _ => []
  | f + 1, c :: rest =>
      match takeLine (c :: rest) with
      | (l, Option.none) => [l]
      | (l, some r) => l :: splitlinesF f r

/-- `str.splitlines()`: break at line boundaries; a trailing boundary does
not open a final empty line. -/
def splitlines (s : PyStr) : List PyStr :=
  splitlinesF s.length s

/-- `str.split(sep)` for a one-character separator: every occurrence splits,
adjacent separators produce empty fields. -/
def pySplit (sep : Nat) : PyStr → List PyStr
  | [] => [[]]
  | c :: rest =>
      if c = sep then [] :: pySplit sep rest
      else
        match pySplit sep rest with
        | [] => [[c]]
        | l :: ls => (c :: l) :: ls

/-! ## JSON text model

`json.dumps(value, sort_keys=True)` and `json.loads` as used by the simple
marshaller for `dict`, `list` and `tuple` payload values
(`src/core/marshaller/marshallers/simple.py`).  `dumps` uses the default
separators `', '` and `': '` and ASCII output (`\uXXXX` escapes, surrogate
pairs for astral code points); `loads` is a recursive-descent reading of the
grammar, returning arrays as `list` and objects as `dict` exactly as the
Python library does.  JSON numbers with a fraction or exponent are floats
and fall outside the model. -/

/-- Strict lexicographic comparison of Python strings by code point
(`str.__lt__`). -/
def strLt : PyStr → PyStr → Bool
  | [], [] => false
  | [], _ :: _ => true
  | _ :: _, [] => false
  | a :: as_, b :: bs => a < b ∨ (a = b ∧ strLt as_ bs)

/-- Insert one key/value pair into a key-sorted association list. -/
def insortKV (kv : PyStr × PyVal) : List (PyStr × PyVal) → List (PyStr × PyVal)
  | [] => [kv]
  | kv' :: rest =>
      if strLt kv'.1 kv.1 then kv' :: insortKV kv rest
      else kv :: kv' :: rest

/-- `sorted(d.items())` by key, as `sort_keys=True` produces. -/
def sortKVs (kvs : List (PyStr × PyVal)) : List (PyStr × PyVal) :=
  kvs.foldr insortKV []

/-- Four lowercase hex digits of a value below 65536. -/
def hex4 (n : Nat) : PyStr :=
  [hexDigit (n / 4096 % 16), hexDigit (n / 256 % 16), hexDigit (n / 16 % 16), hexDigit (n % 16)]

/-- JSON escaping of one code point as `json.dumps` emits it with
`ensure_ascii=True`: two-character escapes for the quote, backslash and
common control characters, `\uXXXX` for other control and non-ASCII
characters, surrogate pairs beyond the BMP. -/
def jsonEscapeChar (c : Nat) : PyStr :=
  if c = 34 then [92, 34]
  else if c = 92 then [92, 92]
  else if c = 10 then [92, 110]
  else if c = 13 then [92, 114]
  else if c = 9 then [92, 116]
  else if c = 8 then [92, 98]
  else if c = 12 then [92, 102]
  else if 32 ≤ c ∧ c ≤ 126 then [c]
  else if c < 65536 then [92, 117] ++ hex4 c
  else
    [92, 117] ++ hex4 (55296 + (c - 65536) / 1024) ++
      [92, 117] ++ hex4 (56320 + (c - 65536) % 1024)

/-- JSON string literal for `s`, quotes included. -/
def jsonStrLit (s : PyStr) : PyStr :=
  [34] ++ (s.map jsonEscapeChar).flatten ++ [34]

mutual

/-- Rendering of an already key-sorted value tree as JSON text.
`json.dumps(v, sort_keys=True)` is `dumps0` after `jnorm` (below), which
performs the per-level key sort. -/
def dumps0 : PyVal → PyStr
  | PyVal.none => pystr "null"
  | PyVal.bool true => pystr "true"
  | PyVal.bool false => pystr "false"
  | PyVal.int n => intToStr n
  | PyVal.str s => jsonStrLit s
  | PyVal.list xs => [91] ++ dumps0Items xs ++ [93]
  | PyVal.tuple xs => [91] ++ dumps0Items xs ++ [93]
  | PyVal.dict kvs => [123] ++ dumps0Members kvs ++ [125]

/-- Comma-separated array items (separator `', '`). -/
def dumps0Items : List PyVal → PyStr
  | [] => []
  | [x] => dumps0 x
  | x :: y :: xs => dumps0 x ++ [44, 32] ++ dumps0Items (y :: xs)

/-- Comma-separated object members (separators `', '` and `': '`). -/
def dumps0Members : List (PyStr × PyVal) → PyStr
  | [] => []
  | [kv] => jsonStrLit kv.1 ++ [58, 32] ++ dumps0 kv.2
  | kv :: kv' :: kvs =>
      jsonStrLit kv.1 ++ [58, 32] ++ dumps0 kv.2 ++ [44, 32] ++
        dumps0Members (kv' :: kvs)

end

mutual

/-- Constructor-count size of a payload value, used as parser fuel and as
an induction measure; a string counts its characters. -/
def pySize : PyVal → Nat
  | PyVal.none => 1
  | PyVal.bool _ => 1
  | PyVal.int _ => 1
  | PyVal.str s => s.length + 1
  | PyVal.list xs => pySizeItems xs + 1
  | PyVal.tuple xs => pySizeItems xs + 1
  | PyVal.dict kvs => pySizeMembers kvs + 1

/-- Summed size of list elements. -/
def pySizeItems : List PyVal → Nat
  | [] => 0
  | x :: xs => pySize x + pySizeItems xs + 2

/-- Summed size of dict members. -/
def pySizeMembers : List (PyStr × PyVal) → Nat
  | [] => 0
  | kv :: kvs => kv.1.length + pySize kv.2 + pySizeMembers kvs + 2

end

/-- JSON insignificant whitespace. -/
def skipWs (s : PyStr) : PyStr :=
  s.dropWhile (fun c => c = 32 ∨ c = 9 ∨ c = 10 ∨ c = 13)

/-- Read exactly four hex digits. -/
def parseHex4 : PyStr → Option (Nat × PyStr)
  | c1 :: c2 :: c3 :: c4 :: rest =>
      match hexDigitVal c1, hexDigitVal c2, hexDigitVal c3, hexDigitVal c4 with
      | some a, some b, some c, some d => some (a * 4096 + b * 256 + c * 16 + d, rest)
      | _, _, _, _ => Option.none
  | _ => Option.none

/-- Prepend a code point to the string component of a parse result. -/
def consStr (c : Nat) (p : Option (PyStr × PyStr)) : Option (PyStr × PyStr) :=
  p.map (fun q => (c :: q.1, q.2))

/-- Read a JSON string body after the opening quote, decoding escapes and
recombining surrogate pairs as `json.loads` does (a lone surrogate escape
is kept as-is). -/
def parseJStr : Nat → PyStr → Option (PyStr × PyStr)
  | 0, _ => Option.none
  | _ + 1, [] => Option.none
  | f + 1, c :: rest =>
      if c = 34 then some ([], rest)
      else if c = 92 then
        match rest with
        | [] => Option.none
        | e :: r =>
            if e = 34 then consStr 34 (parseJStr f r)
            else if e = 92 then consStr 92 (parseJStr f r)
            else if e = 47 then consStr 47 (parseJStr f r)
            else if e = 98 then consStr 8 (parseJStr f r)
            else if e = 102 then consStr 12 (parseJStr f r)
            else if e = 110 then consStr 10 (parseJStr f r)
            else if e = 114 then consStr 13 (parseJStr f r)
            else if e = 116 then consStr 9 (parseJStr f r)
            else if e = 117 then
              match parseHex4 r with
              | Option.none => Option.none
              | some (h, r2) =>
                  if 55296 ≤ h ∧ h ≤ 56319 then
                    if head2Is 92 117 r2 then
                      match parseHex4 (r2.drop 2) with
                      | some (l, r4) =>
                          if 56320 ≤ l ∧ l ≤ 57343 then
                            consStr (65536 + (h - 55296) * 1024 + (l - 56320)) (parseJStr f r4)
                          else consStr h (parseJStr f r2)
                      | Option.none => consStr h (parseJStr f r2)
                    else consStr h (parseJStr f r2)
                  else consStr h (parseJStr f r2)
            else Option.none
      else if c < 32 then Option.none
      else consStr c (parseJStr f rest)

/-- Whether a code point is an ASCII decimal digit. -/
def isDigitCh (c : Nat) : Bool :=
  48 ≤ c ∧ c ≤ 57

/-- Read a JSON integer (an optional minus sign and digits); a following
fraction or exponent would be a float, which is outside the model. -/
def parseJInt (s : PyStr) : Option (PyVal × PyStr) :=
  let neg := headIs 45 s
  let t := if neg then s.drop 1 else s
  let ds := t.takeWhile isDigitCh
  let rest := t.drop ds.length
  match digitsToNat? ds with
  | Option.none => Option.none
  | some n =>
      if headIs 46 rest ∨ headIs 101 rest ∨ headIs 69 rest then Option.none
      else some (PyVal.int (if neg then -(n : Int) else (n : Int)), rest)

/-- Consume an expected literal continuation. -/
def expectLit (lit : PyStr) (s : PyStr) : Option PyStr :=
  if lit.isPrefixOf s then some (s.drop lit.length) else Option.none

mutual

/-- Recursive-descent `json.loads` value reader.  Arrays load as `list`
values and objects as `dict` values, exactly as the Python library
returns them. -/
def parseJVal : Nat → PyStr → Option (PyVal × PyStr)
  | 0, _ => Option.none
  | f + 1, s =>
      match skipWs s with
      | [] => Option.none
      | c :: rest =>
          if c = 110 then (expectLit (pystr "ull") rest).map (fun r => (PyVal.none, r))
          else if c = 116 then (expectLit (pystr "rue") rest).map (fun r => (PyVal.bool true, r))
          else if c = 102 then (expectLit (pystr "alse") rest).map (fun r => (PyVal.bool false, r))
          else if c = 34 then (parseJStr (f + 1) rest).map (fun p => (PyVal.str p.1, p.2))
          else if c = 91 then (parseJArr f rest).map (fun p => (PyVal.list p.1, p.2))
          else if c = 123 then (parseJObj f rest).map (fun p => (PyVal.dict p.1, p.2))
          else parseJInt (c :: rest)

/-- Array contents after the opening bracket. -/
def parseJArr : Nat → PyStr → Option (List PyVal × PyStr)
  | 0, _ => Option.none
  | f + 1, s =>
      if headIs 93 (skipWs s) then some ([], (skipWs s).drop 1)
      else
        match parseJVal f (skipWs s) with
        | Option.none => Option.none
        | some (v, r) =>
            (parseJArrTail f r).map (fun p => (v :: p.1, p.2))

/-- Array items after the first one: a comma and an item, or the closing
bracket. -/
def parseJArrTail : Nat → PyStr → Option (List PyVal × PyStr)
  | 0, _ => Option.none
  | f + 1, s =>
      if headIs 93 (skipWs s) then some ([], (skipWs s).drop 1)
      else if headIs 44 (skipWs s) then
        match parseJVal f ((skipWs s).drop 1) with
        | Option.none => Option.none
        | some (v, r) =>
            (parseJArrTail f r).map (fun p => (v :: p.1, p.2))
      else Option.none

/-- Object contents after the opening brace. -/
def parseJObj : Nat → PyStr → Option (List (PyStr × PyVal) × PyStr)
  | 0, _ => Option.none
  | f + 1, s =>
      if headIs 125 (skipWs s) then some ([], (skipWs s).drop 1)
      else if headIs 34 (skipWs s) then
        match parseJMember f ((skipWs s).drop 1) with
        | Option.none => Option.none
        | some (kv, r) =>
            (parseJObjTail f r).map (fun p => (kv :: p.1, p.2))
      else Option.none

/-- Object members after the first one: a comma and a member, or the
closing brace. -/
def parseJObjTail : Nat → PyStr → Option (List (PyStr × PyVal) × PyStr)
  | 0, _ => Option.none
  | f + 1, s =>
      if headIs 125 (skipWs s) then some ([], (skipWs s).drop 1)
      else if headIs 44 (skipWs s) then
        if headIs 34 (skipWs ((skipWs s).drop 1)) then
          match parseJMember f ((skipWs ((skipWs s).drop 1)).drop 1) with
          | Option.none => Option.none
          | some (kv, r) =>
              (parseJObjTail f r).map (fun p => (kv :: p.1, p.2))
        else Option.none
      else Option.none

/-- One object member after its key's opening quote: the key string, a
colon, and the value. -/
def parseJMember : Nat → PyStr → Option ((PyStr × PyVal) × PyStr)
  | 0, _ => Option.none
  | f + 1, s =>
      match parseJStr (f + 1) s with
      | Option.none => Option.none
      | some (k, r) =>
          if headIs 58 (skipWs r) then
            (parseJVal f ((skipWs r).drop 1)).map (fun p => ((k, p.1), p.2))
          else Option.none

end

/-- `json.loads(s)`: one value covering the whole input (the recursion
budget `2|s| + 2` exceeds any nesting the input can express). -/
def jsonLoads (s : PyStr) : Option PyVal :=
  match parseJVal (2 * s.length + 2) s with
  | some (v, rest) => if skipWs rest = [] then some v else Option.none
  | Option.none => Option.none

/-- What follows an array element in `dumps0` output: either the closing
bracket or a separator and the remaining items. -/
def dumpsATail : List PyVal → PyStr
  | [] => [93]
  | x :: xs => [44, 32] ++ dumps0Items (x :: xs) ++ [93]

/-- What follows an object member in `dumps0` output. -/
def dumpsMTail : List (PyStr × PyVal) → PyStr
  | [] => [125]
  | kv :: kvs => [44, 32] ++ dumps0Members (kv :: kvs) ++ [125]

/-- A continuation in front of which a JSON integer is read completely:
not a digit and not the start of a fraction or exponent. -/
def intBoundary : PyStr → Bool
  | [] => true
  | c :: _ => ¬ isDigitCh c ∧ ¬ c = 46 ∧ ¬ c = 101 ∧ ¬ c = 69

mutual

/-- The value `json.loads(json.dumps(v, sort_keys=True))` comes back as:
tuples become lists and dict members come back key-sorted. -/
def jnorm : PyVal → PyVal
  | PyVal.none => PyVal.none
  | PyVal.bool b => PyVal.bool b
  | PyVal.int n => PyVal.int n
  | PyVal.str s => PyVal.str s
  | PyVal.list xs => PyVal.list (jnormItems xs)
  | PyVal.tuple xs => PyVal.list (jnormItems xs)
  | PyVal.dict kvs => PyVal.dict (sortKVs (jnormMembers kvs))

/-- `jnorm` on each element. -/
def jnormItems : List PyVal → List PyVal
  | [] => []
  | x :: xs => jnorm x :: jnormItems xs

/-- `jnorm` on each member value. -/
def jnormMembers : List (PyStr × PyVal) → List (PyStr × PyVal)
  | [] => []
  | kv :: kvs => (kv.1, jnorm kv.2) :: jnormMembers kvs

end

/-- `json.dumps(v, sort_keys=True)`: render the key-sorted tree.  Sorting
members before rendering and lowering tuples to lists do not change the
emitted text, so this is `dumps0` after `jnorm`. -/
def jsonDumps (v : PyVal) : PyStr :=
  dumps0 (jnorm v)

/-! ## The simple line-oriented marshaller (C1)

Source: `src/core/marshaller/marshallers/simple.py`. -/

/-- `str(True)` / `str(False)`. -/
def strOfBool (b : Bool) : PyStr :=
  if b then pystr "True" else pystr "False"

/-- The `__class__.__name__` used for the line tag of a sequence value. -/
def seqTypeName : PyVal → PyStr
  | PyVal.tuple _ => pystr "tuple"
  | _ => pystr "list"

/-- One `<type>/<key>/<hex value>\n` line of `encode_package`.  The branch
order follows the source (`dict`, `None`, `str`, `list`/`tuple`, `bool`,
`int`); hex is `bytes(str(val), 'utf-8').hex()`.  Unsupported value classes
raise `TypeError` in the source and are outside `PyVal`; `float` values are
outside the model. -/
def encodeLine (k : PyStr) (v : PyVal) : PyStr :=
  match v with
  | PyVal.dict _ =>
      pystr "dict/" ++ k ++ [47] ++ bytesToHex (utf8Encode (jsonDumps v)) ++ [10]
  | PyVal.none =>
      pystr "None/" ++ k ++ [47] ++ bytesToHex (utf8Encode (pystr "None")) ++ [10]
  | PyVal.str s =>
      pystr "str/" ++ k ++ [47] ++ bytesToHex (utf8Encode s) ++ [10]
  | PyVal.list _ =>
      seqTypeName v ++ [47] ++ k ++ [47] ++ bytesToHex (utf8Encode (jsonDumps v)) ++ [10]
  | PyVal.tuple _ =>
      seqTypeName v ++ [47] ++ k ++ [47] ++ bytesToHex (utf8Encode (jsonDumps v)) ++ [10]
  | PyVal.bool b =>
      pystr "bool/" ++ k ++ [47] ++ bytesToHex (utf8Encode (strOfBool b)) ++ [10]
  | PyVal.int n =>
      pystr "int/" ++ k ++ [47] ++ bytesToHex (utf8Encode (intToStr n)) ++ [10]

/-- `encode_package(data, encoding)` with UTF-8: one line per payload entry,
then encode the whole text. -/
def encode_package (data : PyDict) : PyBytes :=
  utf8Encode ((data.map (fun kv => encodeLine kv.1 kv.2)).flatten)

/-- Python iteration over a value, as `list(...)`/`tuple(...)` consume it:
sequences yield their items, strings their characters, dicts their keys;
other values raise `TypeError`. -/
def pyIter : PyVal → Option (List PyVal)
  | PyVal.list xs => some xs
  | PyVal.tuple xs => some xs
  | PyVal.str s => some (s.map (fun c => PyVal.str [c]))
  | PyVal.dict kvs => some (kvs.map (fun kv => PyVal.str kv.1))
  | _ => Option.none

/-- The per-type conversion of one decoded line value
(`decode_package`'s dispatch on `value_type`).  `bool` falls into the
`eval(value_type)(value)` branch, so any non-empty string — including
`"False"` — yields `True`.  `float` lines are outside the model. -/
def decodeTyped (t : PyStr) (s : PyStr) : Option PyVal :=
  if t = pystr "dict" ∨ t = pystr "collections.OrderedDict" then jsonLoads s
  else if t = pystr "None" then some PyVal.none
  else if t = pystr "str" then some (PyVal.str s)
  else if t = pystr "list" then
    match jsonLoads s with
    | some j => (pyIter j).map PyVal.list
    | Option.none => Option.none
  else if t = pystr "tuple" then
    match jsonLoads s with
    | some j => (pyIter j).map PyVal.tuple
    | Option.none => Option.none
  else if t = pystr "bool" then some (PyVal.bool (¬ s = []))
  else if t = pystr "int" then (pyIntParse s).map PyVal.int
  else Option.none

/-- Decode one line of the package into the accumulated result dict:
strip newlines, skip empty lines, split on `/` into exactly three parts,
hex-decode and UTF-8-decode the value, convert by type tag, store under
the key. -/
def decodeLine (acc : PyDict) (rawLine : PyStr) : Option PyDict :=
  let line := stripNl rawLine
  if line = [] then some acc
  else
    match pySplit 47 line with
    | [t, k, v] =>
        match tryFromHex v with
        | Option.none => Option.none
        | some bs =>
            match utf8Decode bs with
            | Option.none => Option.none
            | some s =>
                match decodeTyped t s with
                | Option.none => Option.none
                | some val => some (dictSet acc k val)
    | _ => Option.none

/-- `decode_package(payload, encoding)` with UTF-8: decode the text, then
fold over its lines. -/
def decode_package (payload : PyBytes) : Option PyDict := do
  let data ← utf8Decode payload
  (splitlines data).foldlM decodeLine []

/-! ## Round-trip domain predicates (C1)

The classes of payloads on which the simple codec is its own inverse. -/

/-- Key characters that survive the line format: printable ASCII other than
the field separator `/`. -/
def safeKeyChar (c : Nat) : Bool :=
  32 ≤ c ∧ c ≤ 126 ∧ ¬ c = 47

/-- Boolean form of `IsScalar`. -/
def scalarB (c : Nat) : Bool :=
  c < 1114112 ∧ ¬ (55296 ≤ c ∧ c ≤ 57343)

/-- Keys strictly increasing in code-point order (so also duplicate-free):
the canonical representative of a Python dict, on which `sort_keys=True`
changes nothing. -/
def sortedKeys : List (PyStr × PyVal) → Bool
  | [] => true
  | [_] => true
  | a :: b :: rest => strLt a.1 b.1 && sortedKeys (b :: rest)

mutual

/-- Values that survive a trip through `json.dumps`/`json.loads` unchanged:
scalar-valued strings, ints, bools, `None`, lists, and dicts in canonical
key order — but no tuples (JSON brings them back as lists). -/
def goodN : PyVal → Bool
  | PyVal.none => true
  | PyVal.bool _ => true
  | PyVal.int _ => true
  | PyVal.str s => s.all scalarB
  | PyVal.list xs => goodNItems xs
  | PyVal.tuple _ => false
  | PyVal.dict kvs => sortedKeys kvs && goodNMembers kvs

/-- `goodN` on every element. -/
def goodNItems : List PyVal → Bool
  | [] => true
  | x :: xs => goodN x && goodNItems xs

/-- Scalar keys and `goodN` values. -/
def goodNMembers : List (PyStr × PyVal) → Bool
  | [] => true
  | kv :: kvs => kv.1.all scalarB && goodN kv.2 && goodNMembers kvs

end

/-- Top-level payload values that round-trip: as `goodN`, except that a
tuple is allowed at the top (its line tag restores it) and the boolean
`False` is excluded (`bool('False')` is `True` on decode). -/
def goodTop : PyVal → Bool
  | PyVal.none => true
  | PyVal.bool b => b
  | PyVal.int _ => true
  | PyVal.str s => s.all scalarB
  | PyVal.list xs => goodNItems xs
  | PyVal.tuple xs => goodNItems xs
  | PyVal.dict kvs => sortedKeys kvs && goodNMembers kvs

/-! ## `clacks.core.utils.is_key_legal` (C2)

Source: `src/core/utils.py`.  `LEGAL_TOKENS = 'abcdefghijklmnopqrstuvwxyz_'`;
the function lowercases the key and checks each character's membership.
ASCII lowercasing models Python `str.lower` on the ASCII inputs the theorems
quantify over. -/

/-- The code points of `'abcdefghijklmnopqrstuvwxyz_'`. -/
def LEGAL_TOKENS : List Nat :=
  (List.range 26).map (fun i => 97 + i) ++ [95]

/-- Python `str.lower` restricted to a single ASCII code point. -/
def pyLowerChar (c : Nat) : Nat :=
  if 65 ≤ c ∧ c ≤ 90 then c + 32 else c

/-- `is_key_legal(key)` from `src/core/utils.py`.  A `none` argument stands
for any non-string input (the `None` check and the `isinstance` check both
return `False`). -/
def is_key_legal : Option PyStr → Bool
  | Option.none => false
  | Option.some key =>
      (key.map pyLowerChar).all (fun c => pyLowerChar c ∈ LEGAL_TOKENS)

/-- The valuation inverted by `natToDigitsF`. -/
def digitsVal (ds : PyStr) : Nat :=
  ds.foldl (fun a c => a * 10 + (c - 48)) 0

/-- The `<type>` tag `encode_package` writes in front of a value. -/
def typeTag : PyVal → PyStr
  | PyVal.dict _ => pystr "dict"
  | PyVal.none => pystr "None"
  | PyVal.str _ => pystr "str"
  | PyVal.list _ => pystr "list"
  | PyVal.tuple _ => pystr "tuple"
  | PyVal.bool _ => pystr "bool"
  | PyVal.int _ => pystr "int"

/-- The text whose UTF-8 bytes are hex-encoded into the value field of a
line: `str(val)` for scalars and `json.dumps(val, sort_keys=True)` for
containers. -/
def valText : PyVal → PyStr
  | PyVal.dict kvs => jsonDumps (PyVal.dict kvs)
  | PyVal.none => pystr "None"
  | PyVal.str s => s
  | PyVal.list xs => jsonDumps (PyVal.list xs)
  | PyVal.tuple xs => jsonDumps (PyVal.tuple xs)
  | PyVal.bool b => strOfBool b
  | PyVal.int n => intToStr n

/-! ## Package attribute tables (C10)

Source: `src/core/package.py`.  These lists record exactly the attribute
names bound on instances of `Package`, `Question` and `Response` (instance
fields set in `__init__` plus the properties and methods declared on the
class bodies).  Attribute lookup on any other name raises `AttributeError`
(no `__getattr__` is defined on these classes). -/

/-- Attributes available on every `Package` instance. -/
def packageAttrs : List String :=
  ["payload", "accept_encoding", "load", "header_data", "keep_alive"]

/-- Attributes available on a `Question` instance. -/
def questionAttrs : List String :=
  packageAttrs ++ ["args", "kwargs", "command"]

/-- Attributes available on a `Response` instance. -/
def responseAttrs : List String :=
  packageAttrs ++
    ["response", "code", "traceback", "traceback_type",
     "warnings", "errors", "info", "raise_for_status"]

/-! ## Python `repr`/`str` of payload values

`repr(value).encode('utf-8').hex()` stores tracebacks
(`src/core/package.py`), and `'%s'` interpolation renders values into
error messages (`src/core/server/base.py`).  `pyReprStr` follows CPython:
quote with a single quote — or a double quote when the text contains a
single quote but no double quote — and backslash-escape the backslash,
the quote, `\n`, `\r` and `\t`; other C0 control characters and DEL
become `\xhh`; the remaining characters are kept. -/

def pyReprEscChar (q c : Nat) : PyStr :=
  if c = 92 then [92, 92]
  else if c = q then [92, q]
  else if c = 10 then [92, 110]
  else if c = 13 then [92, 114]
  else if c = 9 then [92, 116]
  else if c < 32 ∨ c = 127 then [92, 120, hexDigit (c / 16), hexDigit (c % 16)]
  else [c]

def pyReprStr (s : PyStr) : PyStr :=
  if 39 ∈ s ∧ ¬ 34 ∈ s then [34] ++ (s.map (pyReprEscChar 34)).flatten ++ [34]
  else [39] ++ (s.map (pyReprEscChar 39)).flatten ++ [39]

mutual

/-- `repr` of a payload value. -/
def pyRepr : PyVal → PyStr
  | PyVal.none => pystr "None"
  | PyVal.bool b => strOfBool b
  | PyVal.int n => intToStr n
  | PyVal.str s => pyReprStr s
  | PyVal.list xs => [91] ++ pyReprItems xs ++ [93]
  | PyVal.tuple [] => [40, 41]
  | PyVal.tuple [x] => [40] ++ pyRepr x ++ [44, 41]
  | PyVal.tuple (x :: y :: xs) => [40] ++ pyReprItems (x :: y :: xs) ++ [41]
  | PyVal.dict kvs => [123] ++ pyReprMembers kvs ++ [125]

/-- Comma-separated `repr`s of sequence items. -/
def pyReprItems : List PyVal → PyStr
  | [] => []
  | [x] => pyRepr x
  | x :: y :: xs => pyRepr x ++ [44, 32] ++ pyReprItems (y :: xs)

/-- Comma-separated `repr`s of dict members. -/
def pyReprMembers : List (PyStr × PyVal) → PyStr
  | [] => []
  | [kv] => pyReprStr kv.1 ++ [58, 32] ++ pyRepr kv.2
  | kv :: kv' :: kvs =>
      pyReprStr kv.1 ++ [58, 32] ++ pyRepr kv.2 ++ [44, 32] ++
        pyReprMembers (kv' :: kvs)

end

/-- `str(v)`, as `'%s' % v` renders it: strings unquoted, containers and
scalars as their `repr`. -/
def pyStr : PyVal → PyStr
  | PyVal.str s => s
  | v => pyRepr v

/-! ## Error classes and return codes (C3–C7)

Sources: `src/core/errors/codes.py` (the `ReturnCodes` table),
`src/core/errors/standard.py` (the Clacks error classes and their `code`
attributes) and `src/core/errors/constants.py` (`error_code_from_error`:
the class's `code` attribute, `UNHANDLED_EXCEPTION` (600) when there is
none).  `ErrT` lists the exception classes that cross the dispatch paths
the claims exercise.  `clacksBadResponse` stands for
`ClacksBadResponseError`, which lives in `errors/__init__.py` — a file the
repository snapshot does not include.  Modelled from the spec: its return
code is 505 (`BAD_RESPONSE`, the spec's return-code table). -/

inductive ErrT where
  | clacksPrivate
  | clacksBadArgs
  | clacksUnexpectedReturn
  | clacksNotFound
  | clacksBadResponse
  | keyError
  | typeError
  | valueError
  | generic
  deriving DecidableEq

/-- `error_code_from_error` applied to each class: `ClacksCommandIsPrivateError`
405, `ClacksBadCommandArgsError` 504, `ClacksCommandUnexpectedReturnValueError`
621, `ClacksCommandNotFoundError` 404, `ClacksBadResponseError` 505;
`KeyError`, `TypeError`, `ValueError` and plain `Exception` have no `code`
attribute, so 600. -/
def error_code_from_error : ErrT → Int
  | ErrT.clacksPrivate => 405
  | ErrT.clacksBadArgs => 504
  | ErrT.clacksUnexpectedReturn => 621
  | ErrT.clacksNotFound => 404
  | ErrT.clacksBadResponse => 505
  | ErrT.keyError => 600
  | ErrT.typeError => 600
  | ErrT.valueError => 600
  | ErrT.generic => 600

/-- The class name rendered into `traceback.format_exc()` text. -/
def errName : ErrT → PyStr
  | ErrT.clacksPrivate => pystr "ClacksCommandIsPrivateError"
  | ErrT.clacksBadArgs => pystr "ClacksBadCommandArgsError"
  | ErrT.clacksUnexpectedReturn => pystr "ClacksCommandUnexpectedReturnValueError"
  | ErrT.clacksNotFound => pystr "ClacksCommandNotFoundError"
  | ErrT.clacksBadResponse => pystr "ClacksBadResponseError"
  | ErrT.keyError => pystr "KeyError"
  | ErrT.typeError => pystr "TypeError"
  | ErrT.valueError => pystr "ValueError"
  | ErrT.generic => pystr "Exception"

/-- `traceback.format_exc()` at the catch sites: non-empty text naming the
exception.  The claims inspect only whether the stored traceback is empty,
never its content, so the stack lines are represented by their fixed
heading. -/
def format_exc (e : ErrT) : PyStr :=
  pystr "Traceback (most recent call last): " ++ errName e

/-! ## `Response` and `Question` (C3–C7)

Source: `src/core/package.py`.  `ResponseM` holds the payload entries and
attributes the claims touch (`header_data`, `response`, `code`, `tb`,
`tb_type`, `accept_encoding`); the `warnings`/`errors`/`info` entries and
the log-capture bookkeeping are not modelled.  `code` holds the raw payload
entry: the constructor stores its argument unconverted (the `code` property
getter applies `int`, the setter `str(int(...))`). -/

structure ResponseM where
  header_data : PyDict
  response : PyVal
  code : PyVal
  tb : Option PyStr
  tb_type : Option PyStr
  accept_encoding : PyStr

/-- The traceback refresh in `Response.__init__` (`self.traceback =
self.traceback` runs the `traceback` setter on the raw `tb` entry): a
non-`None` string is wrapped as `Exception(value)` — the wrapping class is
`Exception` because the `tb_type` kwarg holds a class, not a registry key,
and `error_from_key` returns `Exception` for unknown keys — and stored as
`repr(value).encode('utf-8').hex()`, with `tb_type` set to the registry key
of `Exception`.  Modelled from the spec: `errors/__init__.py` (absent from
the snapshot) registers `Exception` under the fallback key `'exception'`,
the key `key_from_error_type` finds here. -/
def tbStore (s : PyStr) : PyStr :=
  bytesToHex (utf8Encode (pystr "Exception(" ++ pyReprStr s ++ pystr ")"))

/-- `Response(header_data, response, code, tb, ...)`: build the payload,
then refresh the traceback (`tb=None` stays absent; a string is hex-stored
as `tbStore`). -/
def mkResponse (hd : PyDict) (resp : PyVal) (code : PyVal) (tb : Option PyStr) :
    ResponseM :=
  match tb with
  | Option.none =>
      { header_data := hd, response := resp, code := code, tb := Option.none,
        tb_type := Option.none, accept_encoding := pystr "text/json" }
  | some s =>
      { header_data := hd, response := resp, code := code,
        tb := some (tbStore s), tb_type := some (pystr "exception"),
        accept_encoding := pystr "text/json" }

structure QuestionM where
  header_data : PyDict
  command : PyVal
  args : List PyVal
  kwargs : PyDict
  accept_encoding : PyStr

/-- `d.update(u)` on association-list dicts. -/
def dictUpdate (d u : PyDict) : PyDict :=
  u.foldl (fun acc kv => dictSet acc kv.1 kv.2) d

/-- Python truthiness of a header value (`header_data.get('Accept-Encoding',
'text/json')`): the default applies only when the key is absent; the model
reads string-valued headers. -/
def acceptEncodingOf (hd : PyDict) : PyStr :=
  match dictGet hd (pystr "Accept-Encoding") with
  | some (PyVal.str s) => s
  | _ => pystr "text/json"

/-- `Question.load(header_data, data)` (`src/core/package.py`): promote
`kwargs['header_data']` into the header and `kwargs['command']` into the
command, then build the `Question` from `data['command']` (`KeyError` when
absent), `data.get('args', [])` and the remaining kwargs.  A non-dict
`kwargs['header_data']` makes `header_data.update` raise `TypeError`.
Model notes: absent `args`/`kwargs` entries default to empty; present
entries are the decoded list/tuple/dict shapes the handlers produce.
`QuestionM.load2` is the tail of the method after the promotion. -/
def QuestionM.load2 (hd : PyDict) (data : PyDict) (kwargs1 : PyDict) :
    Except ErrT QuestionM :=
  let data1 : PyDict :=
    match dictGet kwargs1 (pystr "command") with
    | some c => dictSet data (pystr "command") c
    | Option.none => data
  let kwargs2 := dictDel kwargs1 (pystr "command")
  match dictGet data1 (pystr "command") with
  | Option.none => Except.error ErrT.keyError
  | some cmd =>
      Except.ok
        { header_data := hd
          command := cmd
          args :=
            match dictGet data (pystr "args") with
            | some (PyVal.list xs) => xs
            | some (PyVal.tuple xs) => xs
            | _ => []
          kwargs := kwargs2
          accept_encoding := pystr "text/json" }

/-- The entry of `Question.load`: the `header_data` promotion, then
`QuestionM.load2`. -/
def QuestionM.load (hd : PyDict) (data : PyDict) : Except ErrT QuestionM :=
  let kwargs0 : PyDict :=
    match dictGet data (pystr "kwargs") with
    | some (PyVal.dict d) => d
    | _ => []
  match dictGet kwargs0 (pystr "header_data") with
  | some (PyVal.dict h) =>
      QuestionM.load2 (dictUpdate hd h) data (dictDel kwargs0 (pystr "header_data"))
  | some _ => Except.error ErrT.typeError
  | Option.none => QuestionM.load2 hd data kwargs0

/-! ## `ServerCommand.digest` (C5, C6)

Source: `src/core/command/command.py`.  `process_args` stands for the
command's argument-processor loop, `process_result` for the
result-processor loop, `call` for the wrapped callable.  Model notes: the
question's `args`/`kwargs` are already a list and a dict, so the
`list(...)`/`dict(...)` conversions at the top of `digest` cannot fail
here; a callable returning a `Response` object is `CmdRet.resp` (a
`Response` nested inside a returned tuple is outside the model). -/

inductive CmdRet where
  | val (v : PyVal)
  | resp (r : ResponseM)

structure ServerCommandM where
  is_private : Bool
  returns_status_code : Bool
  process_args : List PyVal → PyDict → Except ErrT (List PyVal × PyDict)
  call : List PyVal → PyDict → Except ErrT CmdRet
  process_result : PyVal → PyVal

/-- `isinstance(result, (tuple, list))` and the two-element unpack
`result, code = result`. -/
def seqItems? : PyVal → Option (List PyVal)
  | PyVal.tuple xs => some xs
  | PyVal.list xs => some xs
  | _ => Option.none

def ServerCommandM.digest (cmd : ServerCommandM) (q : QuestionM) :
    Except ErrT ResponseM :=
  if cmd.is_private then Except.error ErrT.clacksPrivate
  else
    match cmd.process_args q.args q.kwargs with
    | Except.error e => Except.error e
    | Except.ok (args, kwargs) =>
        match cmd.call args kwargs with
        | Except.error e => Except.error e
        | Except.ok (CmdRet.resp r) =>
            if cmd.returns_status_code then Except.error ErrT.clacksUnexpectedReturn
            else Except.ok { r with response := cmd.process_result r.response }
        | Except.ok (CmdRet.val v) =>
            if cmd.returns_status_code then
              match seqItems? v with
              | Option.none => Except.error ErrT.clacksUnexpectedReturn
              | some [rv, cv] =>
                  Except.ok { (mkResponse [] (cmd.process_result rv) cv
                    Option.none) with accept_encoding := q.accept_encoding }
              | some _ => Except.error ErrT.valueError
            else
              Except.ok { (mkResponse [] (cmd.process_result v) (PyVal.int 200)
                Option.none) with accept_encoding := q.accept_encoding }

/-! ## Server dispatch (C3–C7, C9)

Source: `src/core/server/base.py`.  An adapter's hook either returns
normally (`none`) or raises (`some e`); the source fires the hooks in
registration order with no surrounding `try`, so the first exception
aborts the loop and propagates.  Only the four server-side hook points the
claims exercise are modelled. -/

structure AdapterM where
  server_pre_digest : Option ErrT
  server_post_digest : Option ErrT
  server_pre_add_to_queue : Option ErrT
  server_post_remove_from_queue : Option ErrT

structure ServerM where
  commands : List (PyStr × ServerCommandM)
  adapters : List AdapterM

/-- A hook loop `for adapter in adapters: adapter.hook(...)`: the first
exception propagates. -/
def runHooks (hooks : List (Option ErrT)) : Option ErrT :=
  hooks.findSome? id

/-- `ServerBase.get_command`: `self.commands.get(key)`.  Registered keys
are strings; a non-string lookup misses, and an unhashable key (a list or
dict) raises `TypeError` out of `digest`. -/
def ServerBase.get_command (srv : ServerM) (key : PyVal) :
    Except ErrT (Option ServerCommandM) :=
  match key with
  | PyVal.str s =>
      Except.ok ((srv.commands.find? (fun kv => kv.1 = s)).map (fun kv => kv.2))
  | PyVal.list _ => Except.error ErrT.typeError
  | PyVal.dict _ => Except.error ErrT.typeError
  | _ => Except.ok Option.none

/-- The 404 message `'Given command %s is not registered!'`. -/
def notRegisteredMsg (cmd : PyVal) : PyStr :=
  pystr "Given command " ++ pyStr cmd ++ pystr " is not registered!"

/-- `{'Content-Type': header_data.get('Content-Type', 'text/json')}`. -/
def contentTypeHeader (hd : PyDict) : PyDict :=
  [(pystr "Content-Type",
    (dictGet hd (pystr "Content-Type")).getD (PyVal.str (pystr "text/json")))]

/-- `ServerBase._digest`: run the command's digest, catching every
exception into a fallback `Response` coded by `error_code_from_error`. -/
def ServerBase._digest (cmd : ServerCommandM) (q : QuestionM) : ResponseM :=
  match cmd.digest q with
  | Except.ok r => r
  | Except.error e =>
      mkResponse (contentTypeHeader q.header_data) PyVal.none
        (PyVal.int (error_code_from_error e)) (some (format_exc e))

/-- `ServerBase.digest`: load the question (a failure is a 504 `Response`
with the traceback text), resolve the command (a miss is a 404 `Response`;
an unhashable command key raises out of `digest`), stamp the question's
`accept_encoding` and run `_digest`. -/
def ServerBase.digest (srv : ServerM) (hd : PyDict) (data : PyDict) :
    Except ErrT ResponseM :=
  match QuestionM.load hd data with
  | Except.error e =>
      Except.ok { (mkResponse hd PyVal.none (PyVal.int 504)
        (some (format_exc e))) with accept_encoding := acceptEncodingOf hd }
  | Except.ok q =>
      match ServerBase.get_command srv q.command with
      | Except.error e => Except.error e
      | Except.ok Option.none =>
          Except.ok { (mkResponse hd PyVal.none (PyVal.int 404)
            (some (notRegisteredMsg q.command))) with
              accept_encoding := acceptEncodingOf hd }
      | Except.ok (some cmd) =>
          Except.ok (ServerBase._digest cmd
            { q with accept_encoding := acceptEncodingOf hd })

/-- The `try`/`except` around `self.digest(...)` inside `_respond`: an
exception becomes a fallback `Response`. -/
def ServerBase.digestResponse (srv : ServerM) (hd : PyDict) (data : PyDict) :
    ResponseM :=
  match ServerBase.digest srv hd data with
  | Except.ok r => r
  | Except.error e =>
      mkResponse (contentTypeHeader hd) PyVal.none
        (PyVal.int (error_code_from_error e)) (some (format_exc e))

/-- `ServerBase._respond`: `server_pre_digest` hooks (unwrapped), the
guarded digest, `server_post_digest` hooks (unwrapped), then
`handler.respond`.  The value is the `Response` handed to
`handler.respond`, or the exception that escaped `_respond`; the
`command_handler` log-capture bookkeeping is not modelled. -/
def ServerBase._respond (srv : ServerM) (hd : PyDict) (data : PyDict) :
    Except ErrT ResponseM :=
  match runHooks (srv.adapters.map (fun a => a.server_pre_digest)) with
  | some e => Except.error e
  | Option.none =>
      let response := ServerBase.digestResponse srv hd data
      match runHooks (srv.adapters.map (fun a => a.server_post_digest)) with
      | some e => Except.error e
      | Option.none => Except.ok response

/-- The fallback `Response` built by `__respond`'s catch-all. -/
def respondFallback (hd : PyDict) (e : ErrT) : ResponseM :=
  mkResponse (contentTypeHeader hd) PyVal.none
    (PyVal.int (error_code_from_error e)) (some (format_exc e))

/-- `ServerBase.__respond`: `_respond` under a catch-all that builds the
fallback `Response` and still responds.  The value is the `Response` that
reaches `handler.respond`. -/
def ServerBase.respondFinal (srv : ServerM) (hd : PyDict) (data : PyDict) :
    ResponseM :=
  match ServerBase._respond srv hd data with
  | Except.ok r => r
  | Except.error e => respondFallback hd e

/-! ## The transaction queue under `threaded_digest=false` (C9)

Source: `src/core/server/base.py` (`add_to_queue`, `tick_queue`).  A
transaction is the `(header_data, data)` pair the handler queued; `sent`
records the responses handed to `handler.respond`, in order.  The `busy`
flag (mutual exclusion for the single worker thread) and the empty-queue
sleep are not modelled: one `tick` processes at most one item,
synchronously, exactly as the unthreaded branch does. -/

structure QueueState where
  queue : List (PyDict × PyDict)
  sent : List ResponseM

/-- `ServerBase.add_to_queue`: fire `server_pre_add_to_queue` hooks
(unwrapped — an exception propagates to the receive loop and the item is
never queued), then append the transaction. -/
def ServerBase.add_to_queue (srv : ServerM) (st : QueueState)
    (t : PyDict × PyDict) : Except ErrT QueueState :=
  match runHooks (srv.adapters.map (fun a => a.server_pre_add_to_queue)) with
  | some e => Except.error e
  | Option.none => Except.ok { st with queue := st.queue ++ [t] }

/-- `ServerBase.tick_queue` with `threaded_digest=false`: pop the front of
the queue, fire `server_post_remove_from_queue` hooks (unwrapped), then
digest and respond synchronously through `__respond`. -/
def ServerBase.tick_queue (srv : ServerM) (st : QueueState) :
    Except ErrT QueueState :=
  match st.queue with
  | [] => Except.ok st
  | t :: rest =>
      match runHooks
          (srv.adapters.map (fun a => a.server_post_remove_from_queue)) with
      | some e => Except.error e
      | Option.none =>
          Except.ok { queue := rest
                      sent := st.sent ++ [ServerBase.respondFinal srv t.1 t.2] }

/-- The worker loop: `n` ticks of the queue. -/
def ServerBase.run_queue (srv : ServerM) :
    Nat → QueueState → Except ErrT QueueState
  | 0, st => Except.ok st
  | n + 1, st =>
      match ServerBase.tick_queue srv st with
      | Except.error e => Except.error e
      | Except.ok st2 => ServerBase.run_queue srv n st2

/-! ## Handler-side packet compilation (C8, C10)

Sources: `src/core/handler/base.py` (`_compile_buffer`,
`get_outgoing_header_data`, `get_content_length`, `HEADER_DELIMITER`),
`src/core/handler/handlers/json_handler.py` (`_get_header_data`,
`encode_response_header`) and `src/core/handler/handlers/simple.py`.  A
marshaller's `encode_package` either produces bytes or raises (`none`). -/

structure MarshallerM where
  encode : ResponseM → Option PyBytes

def HEADER_DELIMITER : PyBytes := [13, 10, 13, 10]

/-- `Package.keep_alive`: `header_data.get('Connection') == 'keep-alive'`
when the key is present. -/
def ResponseM.keep_alive (p : ResponseM) : Bool :=
  match dictGet p.header_data (pystr "Connection") with
  | some (PyVal.str s) => s = pystr "keep-alive"
  | _ => false

/-- `BaseRequestHandler.get_content_length`: length of the marshalled
payload. -/
def get_content_length (m : MarshallerM) (p : ResponseM) : Option Nat :=
  (m.encode p).map List.length

/-- `JSONHandler._get_header_data`: `Content-Length` from a fresh
marshalling of the payload, `Accept-Encoding` from the package, and
`Connection: keep-alive` when requested. -/
def JSONHandler.header_data_of (m : MarshallerM) (p : ResponseM) :
    Option PyDict :=
  match get_content_length m p with
  | Option.none => Option.none
  | some n =>
      some (
        let d1 := dictSet [] (pystr "Content-Length") (PyVal.int n)
        let d2 := dictSet d1 (pystr "Accept-Encoding")
          (PyVal.str p.accept_encoding)
        if p.keep_alive then
          dictSet d2 (pystr "Connection") (PyVal.str (pystr "keep-alive"))
        else d2)

/-- `BaseRequestHandler.get_outgoing_header_data`: start from the
package's `header_data`, merge the handler's `_get_header_data` (an
exception there becomes `ValueError`), then require the merged
`Content-Length` to equal the expected body length. -/
def get_outgoing_header_data (m : MarshallerM) (p : ResponseM)
    (expected : Nat) : Except ErrT PyDict :=
  let hd0 := dictUpdate [] p.header_data
  match JSONHandler.header_data_of m p with
  | Option.none => Except.error ErrT.valueError
  | some extra =>
      let merged := dictUpdate hd0 extra
      match dictGet merged (pystr "Content-Length") with
      | some (PyVal.int n) =>
          if n = (expected : Int) then Except.ok merged
          else Except.error ErrT.valueError
      | _ => Except.error ErrT.keyError

/-- `JSONHandler.encode_response_header`: the outgoing header data as
UTF-8 `json.dumps(..., sort_keys=True)` text. -/
def JSONHandler.encode_response_header (m : MarshallerM) (p : ResponseM)
    (expected : Nat) : Except ErrT PyBytes :=
  match get_outgoing_header_data m p expected with
  | Except.error e => Except.error e
  | Except.ok hd => Except.ok (utf8Encode (jsonDumps (PyVal.dict hd)))

/-- The 502 fallback package of `_compile_buffer` (`HandlerErrors
.BAD_CONTENT`); the `%s` interpolation of the original payload is
represented by the template text. -/
def badContentFallback : ResponseM :=
  mkResponse [] (PyVal.str (pystr
    "Bad content. Please provide marshaller-compatible content. Got %s"))
    (PyVal.int 502) Option.none

/-- `BaseRequestHandler._compile_buffer` for a `Response` through the JSON
handler: marshal the body (an exception or empty result falls back to the
502 package, whose own failure propagates), encode the header against the
body length, and return `header ++ delimiter ++ body`. -/
def compile_buffer (m : MarshallerM) (p : ResponseM) : Except ErrT PyBytes :=
  let bytesD : Option PyBytes :=
    match m.encode p with
    | some bs => if bs = [] then m.encode badContentFallback else some bs
    | Option.none => m.encode badContentFallback
  match bytesD with
  | Option.none => Except.error ErrT.generic
  | some body =>
      match JSONHandler.encode_response_header m p body.length with
      | Except.error e => Except.error e
      | Except.ok header => Except.ok (header ++ HEADER_DELIMITER ++ body)

/-- Attribute lookup on a package instance: a name outside the instance's
attribute table raises `AttributeError` (no `__getattr__` is defined). -/
def pkgGetattr (attrs : List String) (name : String) : Option Unit :=
  if name ∈ attrs then some () else Option.none

/-- `SimpleRequestHandler.encode_question_header`: after the isinstance
check the source evaluates `payload.is_valid`; the lookup resolves
against `questionAttrs`.  The remainder of the method (the content-length
comparison and the header `encode_package`) is unreachable, because no
`Package` class defines `is_valid`; its arm returns the empty buffer. -/
def SimpleRequestHandler.encode_question_header (q : QuestionM)
    (expected : Nat) : Except String PyBytes :=
  match pkgGetattr questionAttrs "is_valid" with
  | Option.none => Except.error "AttributeError"
  | some _ => Except.ok []

/-- `SimpleRequestHandler.encode_response_header`: the same shape against
`responseAttrs`. -/
def SimpleRequestHandler.encode_response_header (r : ResponseM)
    (expected : Nat) : Except String PyBytes :=
  match pkgGetattr responseAttrs "is_valid" with
  | Option.none => Except.error "AttributeError"
  | some _ => Except.ok []

/-! ## Concrete instances for the dispatch theorems -/

/-- A public command returning `42`, with no processors. -/
def pingCmd : ServerCommandM :=
  { is_private := false
    returns_status_code := false
    process_args := fun args kwargs => Except.ok (args, kwargs)
    call := fun _ _ => Except.ok (CmdRet.val (PyVal.int 42))
    process_result := fun v => v }

/-- `pingCmd` marked private. -/
def secretCmd : ServerCommandM :=
  { pingCmd with is_private := true }

/-- `pingCmd` marked `returns_status_code` (but still returning a bare
integer). -/
def statusCmd : ServerCommandM :=
  { pingCmd with returns_status_code := true }

/-- A `returns_status_code` command returning `('done', 418)`. -/
def teapotCmd : ServerCommandM :=
  { pingCmd with
    returns_status_code := true
    call := fun _ _ => Except.ok (CmdRet.val
      (PyVal.tuple [PyVal.str (pystr "done"), PyVal.int 418])) }

def srvOk : ServerM :=
  { commands := [(pystr "ping", pingCmd)], adapters := [] }

def srvSecret : ServerM :=
  { commands := [(pystr "secret", secretCmd)], adapters := [] }

/-- An adapter whose `server_pre_digest` and `server_pre_add_to_queue`
hooks raise. -/
def raisingAdapter : AdapterM :=
  { server_pre_digest := some ErrT.generic
    server_post_digest := Option.none
    server_pre_add_to_queue := some ErrT.generic
    server_post_remove_from_queue := Option.none }

def srvBad : ServerM :=
  { srvOk with adapters := [raisingAdapter] }

def dataPing : PyDict := [(pystr "command", PyVal.str (pystr "ping"))]

def dataSecret : PyDict := [(pystr "command", PyVal.str (pystr "secret"))]

def dataEmptyCmd : PyDict := [(pystr "command", PyVal.str [])]

/-- The question `QuestionM.load [] dataPing` produces. -/
def qPing : QuestionM :=
  { header_data := []
    command := PyVal.str (pystr "ping")
    args := []
    kwargs := []
    accept_encoding := pystr "text/json" }

/-- The question `QuestionM.load [] dataSecret` produces. -/
def qSecret : QuestionM :=
  { qPing with command := PyVal.str (pystr "secret") }

/-- The question `QuestionM.load [] dataEmptyCmd` produces. -/
def qEmpty : QuestionM :=
  { qPing with command := PyVal.str [] }

/-- A marshaller for the header theorems: JSON text of the `response`
payload entry. -/
def jsonMarshaller : MarshallerM :=
  { encode := fun r => some (utf8Encode (jsonDumps r.response)) }

/-- A response carrying `42` with an empty header. -/
def resp42 : ResponseM :=
  mkResponse [] (PyVal.int 42) (PyVal.int 200) Option.none

/-- The buffer the JSON handler compiles for `resp42`. -/
def buf42 : PyBytes :=
  match compile_buffer jsonMarshaller resp42 with
  | Except.ok b => b
  | Except.error _ => []

end Clacks

namespace Clacks

/-! ## Byte-level round-trip lemmas -/

theorem utf8EncodeChar_bytes_lt (c : Nat) (h : c < 1114112) :
    ∀ b ∈ utf8EncodeChar c, b < 256 := by
  intro b hb
  unfold utf8EncodeChar at hb
  have m0 : c % 64 < 64 := Nat.mod_lt _ (by omega)
  have m1 : (c / 64) % 64 < 64 := Nat.mod_lt _ (by omega)
  have m2 : (c / 4096) % 64 < 64 := Nat.mod_lt _ (by omega)
  have m3 : c / 262144 < 5 := by omega
  by_cases h1 : c < 128
  · simp only [h1, if_true, List.mem_singleton] at hb; omega
  · simp only [h1, if_false] at hb
    by_cases h2 : c < 2048
    · simp only [h2, if_true, List.mem_cons, List.not_mem_nil, or_false] at hb
      have : c / 64 < 32 := by omega
      rcases hb with rfl | rfl <;> omega
    · simp only [h2, if_false] at hb
      by_cases h3 : c < 65536
      · simp only [h3, if_true, List.mem_cons, List.not_mem_nil, or_false] at hb
        have : c / 4096 < 16 := by omega
        rcases hb with rfl | rfl | rfl <;> omega
      · simp only [h3, if_false, List.mem_cons, List.not_mem_nil, or_false] at hb
        rcases hb with rfl | rfl | rfl | rfl <;> omega

theorem utf8Decode_encodeChar (c : Nat) (hs : scalarB c = true) (bs : PyBytes) :
    utf8Decode (utf8EncodeChar c ++ bs) = (utf8Decode bs).map (fun s => c :: s) := by
  have hc : c < 1114112 ∧ (c < 55296 ∨ 57343 < c) := by
    simpa [scalarB] using hs
  have hns : ¬ (55296 ≤ c ∧ c ≤ 57343) := by omega
  unfold utf8EncodeChar
  by_cases h1 : c < 128
  · simp only [h1, if_true, List.cons_append, List.nil_append]
    conv_lhs => rw [utf8Decode]
    simp only [h1, if_true]
  · simp only [h1, if_false]
    by_cases h2 : c < 2048
    · simp only [h2, if_true, List.cons_append, List.nil_append]
      have hd : 2 ≤ c / 64 ∧ c / 64 < 32 := by omega
      have hb0 : ¬ (192 + c / 64 < 128) := by omega
      have hb1 : ¬ (192 + c / 64 < 194) := by omega
      have hb2 : 192 + c / 64 < 224 := by omega
      have hm : c % 64 < 64 := Nat.mod_lt _ (by omega)
      have hcont : isCont (128 + c % 64) = true := by
        simp only [isCont, decide_eq_true_eq]; omega
      conv_lhs => rw [utf8Decode]
      simp only [hb0, if_false, hb1, hb2, if_true]
      conv_lhs => rw [utf8Dec2]
      simp only [hcont, if_true]
      have hval : (192 + c / 64 - 192) * 64 + (128 + c % 64 - 128) = c := by
        have := Nat.div_add_mod c 64
        omega
      rw [hval]
    · simp only [h2, if_false]
      by_cases h3 : c < 65536
      · simp only [h3, if_true, List.cons_append, List.nil_append]
        have d1 : c / 4096 < 16 := by omega
        have hb0 : ¬ (224 + c / 4096 < 128) := by omega
        have hb1 : ¬ (224 + c / 4096 < 194) := by omega
        have hb2 : ¬ (224 + c / 4096 < 224) := by omega
        have hb3 : 224 + c / 4096 < 240 := by omega
        have m1 : (c / 64) % 64 < 64 := Nat.mod_lt _ (by omega)
        have m0 : c % 64 < 64 := Nat.mod_lt _ (by omega)
        have hcont1 : isCont (128 + (c / 64) % 64) = true := by
          simp only [isCont, decide_eq_true_eq]; omega
        have hcont2 : isCont (128 + c % 64) = true := by
          simp only [isCont, decide_eq_true_eq]; omega
        conv_lhs => rw [utf8Decode]
        simp only [hb0, if_false, hb1, hb2, hb3, if_true]
        conv_lhs => rw [utf8Dec3]
        simp only [hcont1, hcont2, and_true, true_and, if_true]
        have hval : (224 + c / 4096 - 224) * 4096 + (128 + (c / 64) % 64 - 128) * 64 +
            (128 + c % 64 - 128) = c := by
          have e1 := Nat.div_add_mod c 64
          have e2 := Nat.div_add_mod (c / 64) 64
          have e3 : c / 64 / 64 = c / 4096 := by
            rw [Nat.div_div_eq_div_mul]
          omega
        simp only [hval]
        have hr : 2048 ≤ c := by omega
        simp only [hr, hns, not_false_iff, true_and, and_true, if_true]
      · simp only [h3, if_false, List.cons_append, List.nil_append]
        have hlt : c < 1114112 := hc.1
        have d1 : c / 262144 < 5 := by omega
        have hb0 : ¬ (240 + c / 262144 < 128) := by omega
        have hb1 : ¬ (240 + c / 262144 < 194) := by omega
        have hb2 : ¬ (240 + c / 262144 < 224) := by omega
        have hb3 : ¬ (240 + c / 262144 < 240) := by omega
        have hb4 : 240 + c / 262144 < 245 := by omega
        have m2 : (c / 4096) % 64 < 64 := Nat.mod_lt _ (by omega)
        have m1 : (c / 64) % 64 < 64 := Nat.mod_lt _ (by omega)
        have m0 : c % 64 < 64 := Nat.mod_lt _ (by omega)
        have hcont1 : isCont (128 + (c / 4096) % 64) = true := by
          simp only [isCont, decide_eq_true_eq]; omega
        have hcont2 : isCont (128 + (c / 64) % 64) = true := by
          simp only [isCont, decide_eq_true_eq]; omega
        have hcont3 : isCont (128 + c % 64) = true := by
          simp only [isCont, decide_eq_true_eq]; omega
        conv_lhs => rw [utf8Decode]
        simp only [hb0, if_false, hb1, hb2, hb3, hb4, if_true]
        conv_lhs => rw [utf8Dec4]
        simp only [hcont1, hcont2, hcont3, and_true, true_and, if_true]
        have hval : (240 + c / 262144 - 240) * 262144 + (128 + (c / 4096) % 64 - 128) * 4096 +
            (128 + (c / 64) % 64 - 128) * 64 + (128 + c % 64 - 128) = c := by
          have e1 := Nat.div_add_mod c 64
          have e2 := Nat.div_add_mod (c / 64) 64
          have e3 := Nat.div_add_mod (c / 4096) 64
          have e4 : c / 64 / 64 = c / 4096 := by rw [Nat.div_div_eq_div_mul]
          have e5 : c / 4096 / 64 = c / 262144 := by rw [Nat.div_div_eq_div_mul]
          omega
        simp only [hval]
        have hr : 65536 ≤ c := by omega
        simp only [hr, hlt, and_true, true_and, if_true]

theorem utf8Encode_cons (a : Nat) (s : PyStr) :
    utf8Encode (a :: s) = utf8EncodeChar a ++ utf8Encode s := by
  simp [utf8Encode]

theorem utf8Decode_encode_append (s : PyStr) (hs : s.all scalarB = true) (bs : PyBytes) :
    utf8Decode (utf8Encode s ++ bs) = (utf8Decode bs).map (fun t => s ++ t) := by
  induction s with
  | nil =>
      simp [utf8Encode]
  | cons a s ih =>
      simp only [List.all_cons, Bool.and_eq_true] at hs
      rw [utf8Encode_cons, List.append_assoc, utf8Decode_encodeChar a hs.1, ih hs.2]
      cases utf8Decode bs <;> simp

theorem utf8_roundtrip (s : PyStr) (hs : s.all scalarB = true) :
    utf8Decode (utf8Encode s) = some s := by
  have := utf8Decode_encode_append s hs []
  simpa [utf8Decode] using this

theorem hexDigitVal_hexDigit (n : Nat) (h : n < 16) :
    hexDigitVal (hexDigit n) = some n := by
  unfold hexDigit hexDigitVal
  by_cases h10 : n < 10
  · have hr : 48 ≤ 48 + n ∧ 48 + n ≤ 57 := by omega
    have he : 48 + n - 48 = n := by omega
    simp only [h10, if_true, hr, he]
    simp
  · have h1 : ¬ (48 ≤ 87 + n ∧ 87 + n ≤ 57) := by omega
    have h2 : 97 ≤ 87 + n ∧ 87 + n ≤ 102 := by omega
    have he : 87 + n - 87 = n := by omega
    simp only [h10, if_false, h1, h2, if_true, he]
    simp

theorem hexDigit_ne_space (n : Nat) : ¬ hexDigit n = 32 := by
  unfold hexDigit
  by_cases h : n < 10 <;> simp [h] <;> omega

theorem tryFromHex_bytesToHex (bs : PyBytes) (h : ∀ b ∈ bs, b < 256) :
    tryFromHex (bytesToHex bs) = some bs := by
  induction bs with
  | nil => simp [bytesToHex, tryFromHex]
  | cons b bs ih =>
      have hb : b < 256 := h b (List.mem_cons_self _ _)
      have hdiv : b / 16 < 16 := by omega
      have hmod : b % 16 < 16 := Nat.mod_lt _ (by omega)
      have hne : ¬ hexDigit (b / 16) = 32 := hexDigit_ne_space _
      have hbytes : bytesToHex (b :: bs) =
          hexDigit (b / 16) :: hexDigit (b % 16) :: bytesToHex bs := by
        simp [bytesToHex]
      rw [hbytes]
      unfold tryFromHex
      simp only [hne, if_false]
      rw [hexDigitVal_hexDigit _ hdiv, hexDigitVal_hexDigit _ hmod]
      rw [ih (fun x hx => h x (List.mem_cons_of_mem _ hx))]
      have : 16 * (b / 16) + b % 16 = b := by
        have := Nat.div_add_mod b 16
        omega
      simp [this]

/-! ## Decimal integer round-trip lemmas -/

theorem digitsToNat?_all_digits (ds : PyStr) (hne : ds ≠ [])
    (hall : ∀ c ∈ ds, 48 ≤ c ∧ c ≤ 57) :
    digitsToNat? ds = some (ds.foldl (fun a c => a * 10 + (c - 48)) 0) := by
  unfold digitsToNat?
  match ds, hne with
  | d :: ds', _ =>
      simp only
      suffices hgen : ∀ (l : PyStr) (a : Nat), (∀ c ∈ l, 48 ≤ c ∧ c ≤ 57) →
          l.foldlM (fun acc c =>
            if 48 ≤ c ∧ c ≤ 57 then some (acc * 10 + (c - 48)) else Option.none) a =
            some (l.foldl (fun acc c => acc * 10 + (c - 48)) a) by
        exact hgen (d :: ds') 0 hall
      intro l
      induction l with
      | nil => intro a _; rfl
      | cons x xs ih =>
          intro a hl
          have hx := hl x (List.mem_cons_self _ _)
          simp only [List.foldlM_cons, hx, and_self, if_true, List.foldl_cons]
          exact ih _ (fun c hc => hl c (List.mem_cons_of_mem _ hc))

theorem digitsVal_append_last (ds : PyStr) (d : Nat) :
    (ds ++ [d]).foldl (fun a c => a * 10 + (c - 48)) 0 =
      digitsVal ds * 10 + (d - 48) := by
  unfold digitsVal
  rw [List.foldl_append]
  rfl

theorem natToDigitsF_spec (f : Nat) : ∀ n : Nat, n ≤ f →
    natToDigitsF f n ≠ [] ∧ (∀ c ∈ natToDigitsF f n, 48 ≤ c ∧ c ≤ 57) ∧
      digitsVal (natToDigitsF f n) = n := by
  induction f with
  | zero =>
      intro n hn
      have : n = 0 := by omega
      subst this
      refine ⟨by simp [natToDigitsF], ?_, by simp [natToDigitsF, digitsVal]⟩
      intro c hc
      simp only [natToDigitsF, List.mem_singleton] at hc
      omega
  | succ f ih =>
      intro n hn
      unfold natToDigitsF
      by_cases h10 : n < 10
      · refine ⟨by simp [h10], ?_, ?_⟩
        · intro c hc
          simp only [h10, if_true, List.mem_singleton] at hc
          omega
        · simp only [h10, if_true, digitsVal, List.foldl_cons, List.foldl_nil]
          omega
      · have hd : n / 10 ≤ f := by
          have : n / 10 < n := Nat.div_lt_self (by omega) (by omega)
          omega
        obtain ⟨hne, hdig, hval⟩ := ih (n / 10) hd
        simp only [h10, if_false]
        refine ⟨by simp [hne], ?_, ?_⟩
        · intro c hc
          rcases List.mem_append.mp hc with hm | hm
          · exact hdig c hm
          · simp only [List.mem_singleton] at hm
            have : n % 10 < 10 := Nat.mod_lt _ (by omega)
            omega
        · rw [show digitsVal (natToDigitsF f (n / 10) ++ [48 + n % 10]) =
              digitsVal (natToDigitsF f (n / 10)) * 10 + (48 + n % 10 - 48) from
              digitsVal_append_last _ _]
          rw [hval]
          have := Nat.div_add_mod n 10
          omega

theorem natToDigits_spec (n : Nat) :
    natToDigits n ≠ [] ∧ (∀ c ∈ natToDigits n, 48 ≤ c ∧ c ≤ 57) ∧
      digitsVal (natToDigits n) = n :=
  natToDigitsF_spec n n le_rfl

theorem dropWhile_not_space (s : PyStr) (h : ∀ c ∈ s, ¬ c = 32) :
    s.dropWhile (fun c => c = 32) = s := by
  cases s with
  | nil => rfl
  | cons c rest =>
      have := h c (List.mem_cons_self _ _)
      simp [List.dropWhile_cons, this]

theorem strip_spaces_id (s : PyStr) (h : ∀ c ∈ s, ¬ c = 32) :
    (((s.dropWhile (fun c => c = 32)).reverse.dropWhile (fun c => c = 32)).reverse) = s := by
  rw [dropWhile_not_space s h, dropWhile_not_space s.reverse
    (fun c hc => h c (List.mem_reverse.mp hc)), List.reverse_reverse]

theorem digitsToNat?_natToDigits (n : Nat) :
    digitsToNat? (natToDigits n) = some n := by
  obtain ⟨hne, hdig, hval⟩ := natToDigits_spec n
  rw [digitsToNat?_all_digits _ hne hdig]
  exact congrArg some hval

theorem pyIntParse_intToStr (n : Int) : pyIntParse (intToStr n) = some n := by
  cases n with
  | ofNat m =>
      obtain ⟨hne, hdig, hval⟩ := natToDigits_spec m
      unfold pyIntParse intToStr
      have hsp : ∀ c ∈ natToDigits m, ¬ c = 32 := by
        intro c hc
        have := hdig c hc
        omega
      rw [strip_spaces_id _ hsp]
      have h43 : headIs 43 (natToDigits m) = false := by
        cases hh : natToDigits m with
        | nil => simp [headIs]
        | cons c rest =>
            have := hdig c (by rw [hh]; exact List.mem_cons_self _ _)
            simp only [headIs, decide_eq_false_iff_not]
            omega
      have h45 : headIs 45 (natToDigits m) = false := by
        cases hh : natToDigits m with
        | nil => simp [headIs]
        | cons c rest =>
            have := hdig c (by rw [hh]; exact List.mem_cons_self _ _)
            simp only [headIs, decide_eq_false_iff_not]
            omega
      simp only [h43, h45, Bool.false_eq_true, if_false]
      rw [digitsToNat?_natToDigits]
      rfl
  | negSucc m =>
      obtain ⟨hne, hdig, hval⟩ := natToDigits_spec (m + 1)
      unfold pyIntParse intToStr
      have hsp : ∀ c ∈ 45 :: natToDigits (m + 1), ¬ c = 32 := by
        intro c hc
        rcases List.mem_cons.mp hc with rfl | hm
        · omega
        · have := hdig c hm; omega
      rw [strip_spaces_id _ hsp]
      have h43 : headIs 43 (45 :: natToDigits (m + 1)) = false := by
        simp [headIs]
      have h45 : headIs 45 (45 :: natToDigits (m + 1)) = true := by
        simp [headIs]
      simp only [h43, Bool.false_eq_true, if_false, h45, if_true, List.drop_one,
        List.tail_cons]
      rw [digitsToNat?_natToDigits]
      simp [Int.negSucc_eq]

/-! ## JSON string-literal round-trip lemmas -/

theorem parseHex4_hex4 (n : Nat) (h : n < 65536) (rest : PyStr) :
    parseHex4 (hex4 n ++ rest) = some (n, rest) := by
  have h3 : n / 4096 % 16 < 16 := Nat.mod_lt _ (by omega)
  have h2 : n / 256 % 16 < 16 := Nat.mod_lt _ (by omega)
  have h1 : n / 16 % 16 < 16 := Nat.mod_lt _ (by omega)
  have h0 : n % 16 < 16 := Nat.mod_lt _ (by omega)
  show parseHex4 (hexDigit (n / 4096 % 16) :: hexDigit (n / 256 % 16) ::
      hexDigit (n / 16 % 16) :: hexDigit (n % 16) :: rest) = some (n, rest)
  simp only [parseHex4]
  rw [hexDigitVal_hexDigit _ h3, hexDigitVal_hexDigit _ h2,
    hexDigitVal_hexDigit _ h1, hexDigitVal_hexDigit _ h0]
  have hval : n / 4096 % 16 * 4096 + n / 256 % 16 * 256 + n / 16 % 16 * 16 + n % 16 = n := by
    have e0 := Nat.div_add_mod n 16
    have e1 := Nat.div_add_mod (n / 16) 16
    have e2 := Nat.div_add_mod (n / 256) 16
    have d1 : n / 16 / 16 = n / 256 := by rw [Nat.div_div_eq_div_mul]
    have d2 : n / 256 / 16 = n / 4096 := by rw [Nat.div_div_eq_div_mul]
    have d3 : n / 4096 % 16 = n / 4096 := Nat.mod_eq_of_lt (by omega)
    omega
  simp only [hval]

theorem skipWs_cons_of (c : Nat) (t : PyStr) (h : ¬ (c = 32 ∨ c = 9 ∨ c = 10 ∨ c = 13)) :
    skipWs (c :: t) = c :: t := by
  simp only [skipWs, List.dropWhile_cons, decide_eq_true_eq, h, if_false]

theorem skipWs_space (t : PyStr) : skipWs (32 :: t) = skipWs t := by
  simp [skipWs, List.dropWhile_cons]

theorem parseJVal_congr (f : Nat) (s s' : PyStr) (h : skipWs s = skipWs s') :
    parseJVal f s = parseJVal f s' := by
  cases f with
  | zero => rfl
  | succ f => unfold parseJVal; rw [h]

/-- Two-character escape sequences each decode to their character. -/
theorem parseJStr_esc2 (e d : Nat) (f : Nat) (tail : PyStr)
    (h : (e, d) = (34, 34) ∨ (e, d) = (92, 92) ∨ (e, d) = (47, 47) ∨ (e, d) = (98, 8) ∨
      (e, d) = (102, 12) ∨ (e, d) = (110, 10) ∨ (e, d) = (114, 13) ∨ (e, d) = (116, 9)) :
    parseJStr (f + 1) (92 :: e :: tail) = consStr d (parseJStr f tail) := by
  rcases h with h | h | h | h | h | h | h | h <;>
    (injection h with h1 h2; subst h1; subst h2; conv_lhs => unfold parseJStr) <;> simp

/-- An unescaped printable character decodes to itself. -/
theorem parseJStr_plain (c : Nat) (f : Nat) (tail : PyStr)
    (h34 : ¬ c = 34) (h92 : ¬ c = 92) (hc32 : ¬ c < 32) :
    parseJStr (f + 1) (c :: tail) = consStr c (parseJStr f tail) := by
  conv_lhs => unfold parseJStr
  rw [if_neg h34, if_neg h92, if_neg hc32]

/-- A `\uXXXX` escape outside the surrogate range decodes to its code
point. -/
theorem parseJStr_uBmp (c : Nat) (f : Nat) (tail : PyStr) (hbmp : c < 65536)
    (hnsur : ¬ (55296 ≤ c ∧ c ≤ 56319)) :
    parseJStr (f + 1) (92 :: 117 :: (hex4 c ++ tail)) = consStr c (parseJStr f tail) := by
  conv_lhs => unfold parseJStr
  simp only [show ¬ (92 : Nat) = 34 by omega, if_false, if_true,
    show ¬ (117 : Nat) = 34 by omega, show ¬ (117 : Nat) = 92 by omega,
    show ¬ (117 : Nat) = 47 by omega, show ¬ (117 : Nat) = 98 by omega,
    show ¬ (117 : Nat) = 102 by omega, show ¬ (117 : Nat) = 110 by omega,
    show ¬ (117 : Nat) = 114 by omega, show ¬ (117 : Nat) = 116 by omega]
  rw [parseHex4_hex4 c hbmp]
  simp only [hnsur, if_false]

/-- A surrogate-pair escape decodes to the astral code point it encodes. -/
theorem parseJStr_uPair (hi lo : Nat) (f : Nat) (tail : PyStr)
    (hhi : 55296 ≤ hi ∧ hi ≤ 56319) (hlo : 56320 ≤ lo ∧ lo ≤ 57343) :
    parseJStr (f + 1) (92 :: 117 :: (hex4 hi ++ (92 :: 117 :: (hex4 lo ++ tail)))) =
      consStr (65536 + (hi - 55296) * 1024 + (lo - 56320)) (parseJStr f tail) := by
  have hhi16 : hi < 65536 := by omega
  have hlo16 : lo < 65536 := by omega
  conv_lhs => unfold parseJStr
  simp only [show ¬ (92 : Nat) = 34 by omega, if_false, if_true,
    show ¬ (117 : Nat) = 34 by omega, show ¬ (117 : Nat) = 92 by omega,
    show ¬ (117 : Nat) = 47 by omega, show ¬ (117 : Nat) = 98 by omega,
    show ¬ (117 : Nat) = 102 by omega, show ¬ (117 : Nat) = 110 by omega,
    show ¬ (117 : Nat) = 114 by omega, show ¬ (117 : Nat) = 116 by omega]
  rw [parseHex4_hex4 hi hhi16]
  simp only [hhi.1, hhi.2, and_self, if_true]
  rw [show head2Is 92 117 (92 :: 117 :: (hex4 lo ++ tail)) = true from rfl]
  simp only [if_true, List.drop_succ_cons, List.drop_zero]
  rw [parseHex4_hex4 lo hlo16]
  simp only [hlo.1, hlo.2, and_self, if_true]

/-- One escaped character consumes one unit of fuel and yields its code
point, whatever the continuation. -/
theorem parseJStr_escapeChar (c : Nat) (hsc : scalarB c = true) (f : Nat) (tail : PyStr) :
    parseJStr (f + 1) (jsonEscapeChar c ++ tail) = consStr c (parseJStr f tail) := by
  have hc : c < 1114112 ∧ (c < 55296 ∨ 57343 < c) := by simpa [scalarB] using hsc
  unfold jsonEscapeChar
  by_cases h34 : c = 34
  · subst h34
    simp only [if_true, List.cons_append, List.nil_append]
    exact parseJStr_esc2 34 34 f tail (by simp)
  · simp only [h34, if_false]
    by_cases h92 : c = 92
    · subst h92
      simp only [if_true, List.cons_append, List.nil_append]
      exact parseJStr_esc2 92 92 f tail (by simp)
    · simp only [h92, if_false]
      by_cases h10 : c = 10
      · subst h10
        simp only [if_true, List.cons_append, List.nil_append]
        exact parseJStr_esc2 110 10 f tail (by simp)
      · simp only [h10, if_false]
        by_cases h13 : c = 13
        · subst h13
          simp only [if_true, List.cons_append, List.nil_append]
          exact parseJStr_esc2 114 13 f tail (by simp)
        · simp only [h13, if_false]
          by_cases h9 : c = 9
          · subst h9
            simp only [if_true, List.cons_append, List.nil_append]
            exact parseJStr_esc2 116 9 f tail (by simp)
          · simp only [h9, if_false]
            by_cases h8 : c = 8
            · subst h8
              simp only [if_true, List.cons_append, List.nil_append]
              exact parseJStr_esc2 98 8 f tail (by simp)
            · simp only [h8, if_false]
              by_cases h12 : c = 12
              · subst h12
                simp only [if_true, List.cons_append, List.nil_append]
                exact parseJStr_esc2 102 12 f tail (by simp)
              · simp only [h12, if_false]
                by_cases hpr : 32 ≤ c ∧ c ≤ 126
                · simp only [hpr.1, hpr.2, and_self, if_true, List.cons_append,
                    List.nil_append]
                  exact parseJStr_plain c f tail h34 h92 (by omega)
                · simp only [hpr, if_false]
                  by_cases hbmp : c < 65536
                  · simp only [hbmp, if_true, List.cons_append, List.nil_append,
                      List.append_assoc]
                    exact parseJStr_uBmp c f tail hbmp (by omega)
                  · simp only [hbmp, if_false, List.cons_append, List.nil_append,
                      List.append_assoc]
                    have hccap : c < 1114112 := hc.1
                    have hhi : (c - 65536) / 1024 < 1024 := by omega
                    have hlo : (c - 65536) % 1024 < 1024 := Nat.mod_lt _ (by omega)
                    have h2 := parseJStr_uPair (55296 + (c - 65536) / 1024)
                      (56320 + (c - 65536) % 1024) f tail (by omega) (by omega)
                    have hcomb : 65536 + (55296 + (c - 65536) / 1024 - 55296) * 1024 +
                        (56320 + (c - 65536) % 1024 - 56320) = c := by
                      have := Nat.div_add_mod (c - 65536) 1024
                      omega
                    rw [hcomb] at h2
                    rw [show (92 : Nat) :: 117 :: (hex4 (55296 + (c - 65536) / 1024) ++
                      (92 :: 117 :: (hex4 (56320 + (c - 65536) % 1024) ++ tail))) =
                      92 :: 117 :: (hex4 (55296 + (c - 65536) / 1024) ++
                      ([92, 117] ++ (hex4 (56320 + (c - 65536) % 1024) ++ tail))) from rfl] at h2
                    simpa using h2

/-- A whole escaped string body followed by the closing quote parses back
to the original string. -/
theorem parseJStr_escape (s : PyStr) (hs : s.all scalarB = true) :
    ∀ f rest, s.length < f →
      parseJStr f ((s.map jsonEscapeChar).flatten ++ 34 :: rest) = some (s, rest) := by
  induction s with
  | nil =>
      intro f rest hf
      match f, hf with
      | f + 1, _ =>
          simp only [List.map_nil, List.flatten_nil, List.nil_append]
          unfold parseJStr
          simp
  | cons c s ih =>
      intro f rest hf
      simp only [List.all_cons, Bool.and_eq_true] at hs
      match f, hf with
      | f + 1, hf =>
          have hflen : s.length < f := by
            simp only [List.length_cons] at hf
            omega
          have ihs := ih hs.2 f rest hflen
          have hstep := parseJStr_escapeChar c hs.1 f
            ((s.map jsonEscapeChar).flatten ++ 34 :: rest)
          simp only [List.map_cons, List.flatten_cons, List.append_assoc]
          rw [hstep, ihs]
          rfl

/-! ## JSON value parser soundness -/

theorem pySize_pos (v : PyVal) : 1 ≤ pySize v := by
  cases v <;> simp [pySize]

theorem expectLit_append (lit rest : PyStr) : expectLit lit (lit ++ rest) = some rest := by
  unfold expectLit
  rw [if_pos]
  · rw [List.drop_left]
  · exact List.isPrefixOf_iff_prefix.mpr (List.prefix_append _ _)

theorem takeWhile_all_append (p : Nat → Bool) (l r : PyStr)
    (hl : ∀ c ∈ l, p c = true) (hr : ∀ c, r.head? = some c → p c = false) :
    (l ++ r).takeWhile p = l := by
  induction l with
  | nil =>
      cases r with
      | nil => rfl
      | cons c t =>
          simp only [List.nil_append, List.takeWhile_cons, hr c rfl,
            Bool.false_eq_true, if_false]
  | cons x xs ih =>
      simp only [List.cons_append, List.takeWhile_cons, hl x (List.mem_cons_self _ _),
        if_true]
      rw [ih (fun c hc => hl c (List.mem_cons_of_mem _ hc))]

theorem intBoundary_head (rest : PyStr) (hb : intBoundary rest = true) :
    ∀ c, rest.head? = some c → isDigitCh c = false ∧ ¬ c = 46 ∧ ¬ c = 101 ∧ ¬ c = 69 := by
  intro c hc
  cases rest with
  | nil => cases hc
  | cons x t =>
      simp only [List.head?_cons, Option.some.injEq] at hc
      subst hc
      simpa [intBoundary] using hb

theorem headIs_of_boundary (rest : PyStr) (hb : intBoundary rest = true) :
    headIs 46 rest = false ∧ headIs 101 rest = false ∧ headIs 69 rest = false := by
  cases rest with
  | nil => simp [headIs]
  | cons x t =>
      have := intBoundary_head _ hb x rfl
      simp only [headIs, decide_eq_false_iff_not]
      exact ⟨this.2.1, this.2.2.1, this.2.2.2⟩

theorem parseJInt_intToStr (n : Int) (rest : PyStr) (hb : intBoundary rest = true) :
    parseJInt (intToStr n ++ rest) = some (PyVal.int n, rest) := by
  obtain ⟨hd46, hd101, hd69⟩ := headIs_of_boundary rest hb
  have hdig : ∀ c, rest.head? = some c → isDigitCh c = false :=
    fun c hc => (intBoundary_head _ hb c hc).1
  cases n with
  | ofNat m =>
      obtain ⟨hne, hdigs, hval⟩ := natToDigits_spec m
      have h45 : headIs 45 (natToDigits m ++ rest) = false := by
        cases hh : natToDigits m with
        | nil => exact absurd hh hne
        | cons c t =>
            have := hdigs c (by rw [hh]; exact List.mem_cons_self _ _)
            simp only [hh, List.cons_append, headIs, decide_eq_false_iff_not]
            omega
      unfold parseJInt intToStr
      simp only [h45, Bool.false_eq_true, if_false]
      rw [takeWhile_all_append isDigitCh (natToDigits m) rest
        (fun c hc => by simp only [isDigitCh, decide_eq_true_eq]; exact hdigs c hc) hdig]
      rw [List.drop_left]
      rw [digitsToNat?_natToDigits]
      simp only [hd46, hd101, hd69, Bool.false_eq_true, or_self, if_false]
      rfl
  | negSucc m =>
      obtain ⟨hne, hdigs, hval⟩ := natToDigits_spec (m + 1)
      have h45 : headIs 45 (45 :: (natToDigits (m + 1) ++ rest)) = true := by
        simp [headIs]
      unfold parseJInt intToStr
      simp only [List.cons_append, h45, if_true, List.drop_one, List.tail_cons]
      rw [takeWhile_all_append isDigitCh (natToDigits (m + 1)) rest
        (fun c hc => by simp only [isDigitCh, decide_eq_true_eq]; exact hdigs c hc) hdig]
      rw [List.drop_left]
      rw [digitsToNat?_natToDigits]
      simp only [hd46, hd101, hd69, Bool.false_eq_true, or_self, if_false]
      simp [Int.negSucc_eq]

theorem intToStr_head (n : Int) :
    ∃ c t, intToStr n = c :: t ∧ (c = 45 ∨ (48 ≤ c ∧ c ≤ 57)) := by
  cases n with
  | ofNat m =>
      obtain ⟨hne, hdigs, _⟩ := natToDigits_spec m
      cases hh : natToDigits m with
      | nil => exact absurd hh hne
      | cons c t =>
          refine ⟨c, t, ?_, ?_⟩
          · show natToDigits m = c :: t
            exact hh
          · exact Or.inr (hdigs c (by rw [hh]; exact List.mem_cons_self _ _))
  | negSucc m => exact ⟨45, _, rfl, Or.inl rfl⟩

theorem dumps0_head (v : PyVal) :
    ∃ c t, dumps0 v = c :: t ∧ (c = 110 ∨ c = 116 ∨ c = 102 ∨ c = 34 ∨ c = 91 ∨
      c = 123 ∨ c = 45 ∨ (48 ≤ c ∧ c ≤ 57)) := by
  cases v with
  | none => exact ⟨110, _, rfl, by omega⟩
  | bool b =>
      cases b
      · exact ⟨102, _, rfl, by omega⟩
      · exact ⟨116, _, rfl, by omega⟩
  | int n =>
      cases n with
      | ofNat m =>
          obtain ⟨hne, hdigs, _⟩ := natToDigits_spec m
          cases hh : natToDigits m with
          | nil => exact absurd hh hne
          | cons c t =>
              refine ⟨c, t, ?_, ?_⟩
              · show intToStr (Int.ofNat m) = c :: t
                rw [show intToStr (Int.ofNat m) = natToDigits m from rfl, hh]
              · have := hdigs c (by rw [hh]; exact List.mem_cons_self _ _)
                omega
      | negSucc m =>
          exact ⟨45, _, rfl, by omega⟩
  | str s => exact ⟨34, _, rfl, by omega⟩
  | list xs => exact ⟨91, _, rfl, by omega⟩
  | tuple xs => exact ⟨91, _, rfl, by omega⟩
  | dict kvs => exact ⟨123, _, rfl, by omega⟩

theorem skipWs_dumps0 (v : PyVal) (rest : PyStr) :
    skipWs (dumps0 v ++ rest) = dumps0 v ++ rest := by
  obtain ⟨c, t, he, hc⟩ := dumps0_head v
  rw [he, List.cons_append]
  exact skipWs_cons_of c (t ++ rest) (by omega)

theorem headIs_dumps0_93 (v : PyVal) (rest : PyStr) :
    headIs 93 (dumps0 v ++ rest) = false := by
  obtain ⟨c, t, he, hc⟩ := dumps0_head v
  rw [he, List.cons_append]
  simp only [headIs, decide_eq_false_iff_not]
  omega

theorem headIs_dumps0_125 (v : PyVal) (rest : PyStr) :
    headIs 125 (dumps0 v ++ rest) = false := by
  obtain ⟨c, t, he, hc⟩ := dumps0_head v
  rw [he, List.cons_append]
  simp only [headIs, decide_eq_false_iff_not]
  omega

theorem intBoundary_dumpsATail (xs : List PyVal) (rest : PyStr) :
    intBoundary (dumpsATail xs ++ rest) = true := by
  cases xs <;> simp [dumpsATail, intBoundary, isDigitCh]

theorem intBoundary_dumpsMTail (kvs : List (PyStr × PyVal)) (rest : PyStr) :
    intBoundary (dumpsMTail kvs ++ rest) = true := by
  cases kvs <;> simp [dumpsMTail, intBoundary, isDigitCh]

theorem items_bridge (x : PyVal) (xs : List PyVal) (rest : PyStr) :
    dumps0Items (x :: xs) ++ 93 :: rest = dumps0 x ++ (dumpsATail xs ++ rest) := by
  cases xs with
  | nil => simp [dumps0Items, dumpsATail]
  | cons y ys =>
      show dumps0Items (x :: y :: ys) ++ 93 :: rest = _
      rw [show dumps0Items (x :: y :: ys) =
        dumps0 x ++ [44, 32] ++ dumps0Items (y :: ys) from rfl]
      simp [dumpsATail]

theorem members_bridge (kv : PyStr × PyVal) (kvs : List (PyStr × PyVal)) (rest : PyStr) :
    dumps0Members (kv :: kvs) ++ 125 :: rest =
      34 :: ((kv.1.map jsonEscapeChar).flatten ++ 34 :: 58 :: 32 ::
        (dumps0 kv.2 ++ (dumpsMTail kvs ++ rest))) := by
  cases kvs with
  | nil =>
      show (jsonStrLit kv.1 ++ [58, 32] ++ dumps0 kv.2) ++ 125 :: rest = _
      simp [jsonStrLit, dumpsMTail]
  | cons kv2 kvs2 =>
      show (jsonStrLit kv.1 ++ [58, 32] ++ dumps0 kv.2 ++ [44, 32] ++
        dumps0Members (kv2 :: kvs2)) ++ 125 :: rest = _
      simp [jsonStrLit, dumpsMTail]

/-! Dispatch steps of `parseJVal` on each kind of head. -/

theorem parseJVal_null (f : Nat) (rest : PyStr) :
    parseJVal (f + 1) (110 :: 117 :: 108 :: 108 :: rest) = some (PyVal.none, rest) := by
  conv_lhs => unfold parseJVal
  rw [skipWs_cons_of 110 _ (by omega)]
  simp only [if_true]
  rw [show (117 : Nat) :: 108 :: 108 :: rest = pystr "ull" ++ rest by simp [pystr]]
  rw [expectLit_append]
  rfl

theorem parseJVal_true (f : Nat) (rest : PyStr) :
    parseJVal (f + 1) (116 :: 114 :: 117 :: 101 :: rest) = some (PyVal.bool true, rest) := by
  conv_lhs => unfold parseJVal
  rw [skipWs_cons_of 116 _ (by omega)]
  simp only [show ¬ (116 : Nat) = 110 by omega, if_false, if_true]
  rw [show (114 : Nat) :: 117 :: 101 :: rest = pystr "rue" ++ rest by simp [pystr]]
  rw [expectLit_append]
  rfl

theorem parseJVal_false (f : Nat) (rest : PyStr) :
    parseJVal (f + 1) (102 :: 97 :: 108 :: 115 :: 101 :: rest) =
      some (PyVal.bool false, rest) := by
  conv_lhs => unfold parseJVal
  rw [skipWs_cons_of 102 _ (by omega)]
  simp only [show ¬ (102 : Nat) = 110 by omega, show ¬ (102 : Nat) = 116 by omega,
    if_false, if_true]
  rw [show (97 : Nat) :: 108 :: 115 :: 101 :: rest = pystr "alse" ++ rest by simp [pystr]]
  rw [expectLit_append]
  rfl

theorem parseJVal_strOpen (f : Nat) (t : PyStr) :
    parseJVal (f + 1) (34 :: t) = (parseJStr (f + 1) t).map (fun p => (PyVal.str p.1, p.2)) := by
  conv_lhs => unfold parseJVal
  rw [skipWs_cons_of 34 _ (by omega)]
  simp only [show ¬ (34 : Nat) = 110 by omega, show ¬ (34 : Nat) = 116 by omega,
    show ¬ (34 : Nat) = 102 by omega, if_false, if_true]

theorem parseJVal_arrOpen (f : Nat) (t : PyStr) :
    parseJVal (f + 1) (91 :: t) = (parseJArr f t).map (fun p => (PyVal.list p.1, p.2)) := by
  conv_lhs => unfold parseJVal
  rw [skipWs_cons_of 91 _ (by omega)]
  simp only [show ¬ (91 : Nat) = 110 by omega, show ¬ (91 : Nat) = 116 by omega,
    show ¬ (91 : Nat) = 102 by omega, show ¬ (91 : Nat) = 34 by omega, if_false, if_true]

theorem parseJVal_objOpen (f : Nat) (t : PyStr) :
    parseJVal (f + 1) (123 :: t) = (parseJObj f t).map (fun p => (PyVal.dict p.1, p.2)) := by
  conv_lhs => unfold parseJVal
  rw [skipWs_cons_of 123 _ (by omega)]
  simp only [show ¬ (123 : Nat) = 110 by omega, show ¬ (123 : Nat) = 116 by omega,
    show ¬ (123 : Nat) = 102 by omega, show ¬ (123 : Nat) = 34 by omega,
    show ¬ (123 : Nat) = 91 by omega, if_false, if_true]

theorem parseJVal_num (f : Nat) (c : Nat) (t : PyStr)
    (hc : c = 45 ∨ (48 ≤ c ∧ c ≤ 57)) :
    parseJVal (f + 1) (c :: t) = parseJInt (c :: t) := by
  conv_lhs => unfold parseJVal
  rw [skipWs_cons_of c _ (by omega)]
  have h110 : ¬ c = 110 := by omega
  have h116 : ¬ c = 116 := by omega
  have h102 : ¬ c = 102 := by omega
  have h34 : ¬ c = 34 := by omega
  have h91 : ¬ c = 91 := by omega
  have h123 : ¬ c = 123 := by omega
  simp only [h110, h116, h102, h34, h91, h123, if_false]

/-- Joint soundness of the JSON readers on `dumps0` output, by induction on
the fuel: with enough fuel, every reader returns exactly the rendered value
and the untouched continuation. -/
theorem parse_sound : ∀ f : Nat,
    (∀ v rest, goodN v = true → intBoundary rest = true → pySize v < f →
      parseJVal f (dumps0 v ++ rest) = some (v, rest)) ∧
    (∀ xs rest, goodNItems xs = true → pySizeItems xs < f →
      parseJArr f (dumps0Items xs ++ 93 :: rest) = some (xs, rest)) ∧
    (∀ xs rest, goodNItems xs = true → pySizeItems xs < f →
      parseJArrTail f (dumpsATail xs ++ rest) = some (xs, rest)) ∧
    (∀ kvs rest, goodNMembers kvs = true → pySizeMembers kvs < f →
      parseJObj f (dumps0Members kvs ++ 125 :: rest) = some (kvs, rest)) ∧
    (∀ kvs rest, goodNMembers kvs = true → pySizeMembers kvs < f →
      parseJObjTail f (dumpsMTail kvs ++ rest) = some (kvs, rest)) ∧
    (∀ k v rest, k.all scalarB = true → goodN v = true → intBoundary rest = true →
      k.length + pySize v + 1 < f →
      parseJMember f ((k.map jsonEscapeChar).flatten ++ 34 :: 58 :: 32 ::
        (dumps0 v ++ rest)) = some ((k, v), rest)) := by
  intro f
  induction f with
  | zero =>
      refine ⟨?_, ?_, ?_, ?_, ?_, ?_⟩
      · intro v rest _ _ h; omega
      · intro xs rest _ h; omega
      · intro xs rest _ h; omega
      · intro kvs rest _ h; omega
      · intro kvs rest _ h; omega
      · intro k v rest _ _ _ h; omega
  | succ f ih =>
      obtain ⟨ih1, ih2, ih3, ih4, ih5, ih6⟩ := ih
      have P1 : ∀ v rest, goodN v = true → intBoundary rest = true → pySize v < f + 1 →
          parseJVal (f + 1) (dumps0 v ++ rest) = some (v, rest) := by
        intro v rest hg hb hsz
        cases v with
        | none =>
            rw [show dumps0 PyVal.none ++ rest = 110 :: 117 :: 108 :: 108 :: rest by
              simp [dumps0, pystr]]
            exact parseJVal_null f rest
        | bool b =>
            cases b
            · rw [show dumps0 (PyVal.bool false) ++ rest =
                102 :: 97 :: 108 :: 115 :: 101 :: rest by simp [dumps0, pystr]]
              exact parseJVal_false f rest
            · rw [show dumps0 (PyVal.bool true) ++ rest =
                116 :: 114 :: 117 :: 101 :: rest by simp [dumps0, pystr]]
              exact parseJVal_true f rest
        | int n =>
            obtain ⟨c, t, he, hcls⟩ := intToStr_head n
            rw [show dumps0 (PyVal.int n) = intToStr n from rfl, he, List.cons_append]
            rw [parseJVal_num f c (t ++ rest) hcls]
            rw [← List.cons_append, ← he]
            exact parseJInt_intToStr n rest hb
        | str s =>
            have hall : s.all scalarB = true := by simpa [goodN] using hg
            have hlen : s.length < f + 1 := by
              simp only [pySize] at hsz
              omega
            rw [show dumps0 (PyVal.str s) ++ rest =
              34 :: ((s.map jsonEscapeChar).flatten ++ 34 :: rest) by
              simp [dumps0, jsonStrLit]]
            rw [parseJVal_strOpen]
            rw [parseJStr_escape s hall (f + 1) rest hlen]
            rfl
        | list xs =>
            have hgi : goodNItems xs = true := by simpa [goodN] using hg
            have hszi : pySizeItems xs < f := by
              simp only [pySize] at hsz
              omega
            rw [show dumps0 (PyVal.list xs) ++ rest =
              91 :: (dumps0Items xs ++ 93 :: rest) by simp [dumps0]]
            rw [parseJVal_arrOpen]
            rw [ih2 xs rest hgi hszi]
            rfl
        | tuple xs =>
            simp [goodN] at hg
        | dict kvs =>
            have hgm : goodNMembers kvs = true := by
              have h2 := hg
              simp only [goodN, Bool.and_eq_true] at h2
              exact h2.2
            have hszm : pySizeMembers kvs < f := by
              simp only [pySize] at hsz
              omega
            rw [show dumps0 (PyVal.dict kvs) ++ rest =
              123 :: (dumps0Members kvs ++ 125 :: rest) by simp [dumps0]]
            rw [parseJVal_objOpen]
            rw [ih4 kvs rest hgm hszm]
            rfl
      refine ⟨P1, ?_, ?_, ?_, ?_, ?_⟩
      · -- parseJArr
        intro xs rest hg hsz
        cases xs with
        | nil =>
            rw [show dumps0Items [] ++ 93 :: rest = 93 :: rest by simp [dumps0Items]]
            conv_lhs => unfold parseJArr
            rw [skipWs_cons_of 93 rest (by omega)]
            simp [headIs]
        | cons x xs' =>
            have hgsplit := hg
            simp only [goodNItems, Bool.and_eq_true] at hgsplit
            have hgx : goodN x = true := hgsplit.1
            have hgxs : goodNItems xs' = true := hgsplit.2
            have hszx : pySize x < f := by
              simp only [pySizeItems] at hsz
              omega
            have hszxs : pySizeItems xs' < f := by
              have := pySize_pos x
              simp only [pySizeItems] at hsz
              omega
            rw [items_bridge]
            conv_lhs => unfold parseJArr
            rw [skipWs_dumps0 x (dumpsATail xs' ++ rest)]
            rw [headIs_dumps0_93 x (dumpsATail xs' ++ rest)]
            simp only [Bool.false_eq_true, if_false]
            rw [ih1 x (dumpsATail xs' ++ rest) hgx (intBoundary_dumpsATail xs' rest) hszx]
            simp only [ih3 xs' rest hgxs hszxs]
            rfl
      · -- parseJArrTail
        intro xs rest hg hsz
        cases xs with
        | nil =>
            rw [show dumpsATail [] ++ rest = 93 :: rest by simp [dumpsATail]]
            conv_lhs => unfold parseJArrTail
            rw [skipWs_cons_of 93 rest (by omega)]
            simp [headIs]
        | cons y ys =>
            have hgsplit := hg
            simp only [goodNItems, Bool.and_eq_true] at hgsplit
            have hgy : goodN y = true := hgsplit.1
            have hgys : goodNItems ys = true := hgsplit.2
            have hszy : pySize y < f := by
              simp only [pySizeItems] at hsz
              omega
            have hszys : pySizeItems ys < f := by
              have := pySize_pos y
              simp only [pySizeItems] at hsz
              omega
            rw [show dumpsATail (y :: ys) ++ rest =
              44 :: 32 :: (dumps0Items (y :: ys) ++ 93 :: rest) by simp [dumpsATail]]
            conv_lhs => unfold parseJArrTail
            rw [skipWs_cons_of 44 _ (by omega)]
            rw [show headIs 93 (44 :: 32 :: (dumps0Items (y :: ys) ++ 93 :: rest)) = false
              by simp [headIs]]
            rw [show headIs 44 (44 :: 32 :: (dumps0Items (y :: ys) ++ 93 :: rest)) = true
              by simp [headIs]]
            simp only [Bool.false_eq_true, if_false, if_true, List.drop_succ_cons,
              List.drop_zero]
            rw [items_bridge]
            rw [parseJVal_congr f (32 :: (dumps0 y ++ (dumpsATail ys ++ rest)))
              (dumps0 y ++ (dumpsATail ys ++ rest)) (skipWs_space _)]
            rw [ih1 y (dumpsATail ys ++ rest) hgy (intBoundary_dumpsATail ys rest) hszy]
            simp only [ih3 ys rest hgys hszys]
            rfl
      · -- parseJObj
        intro kvs rest hg hsz
        cases kvs with
        | nil =>
            rw [show dumps0Members [] ++ 125 :: rest = 125 :: rest by simp [dumps0Members]]
            conv_lhs => unfold parseJObj
            rw [skipWs_cons_of 125 rest (by omega)]
            simp [headIs]
        | cons kv kvs' =>
            have hgsplit := hg
            simp only [goodNMembers, Bool.and_eq_true] at hgsplit
            have hgk : kv.1.all scalarB = true := hgsplit.1.1
            have hgv : goodN kv.2 = true := hgsplit.1.2
            have hgm : goodNMembers kvs' = true := hgsplit.2
            have hszm : kv.1.length + pySize kv.2 + 1 < f := by
              simp only [pySizeMembers] at hsz
              omega
            have hszr : pySizeMembers kvs' < f := by
              have := pySize_pos kv.2
              simp only [pySizeMembers] at hsz
              omega
            rw [members_bridge]
            conv_lhs => unfold parseJObj
            rw [skipWs_cons_of 34 _ (by omega)]
            rw [show headIs 125 (34 :: ((kv.1.map jsonEscapeChar).flatten ++ 34 :: 58 :: 32 ::
              (dumps0 kv.2 ++ (dumpsMTail kvs' ++ rest)))) = false by simp [headIs]]
            rw [show headIs 34 (34 :: ((kv.1.map jsonEscapeChar).flatten ++ 34 :: 58 :: 32 ::
              (dumps0 kv.2 ++ (dumpsMTail kvs' ++ rest)))) = true by simp [headIs]]
            simp only [Bool.false_eq_true, if_false, if_true, List.drop_succ_cons,
              List.drop_zero]
            rw [ih6 kv.1 kv.2 (dumpsMTail kvs' ++ rest) hgk hgv
              (intBoundary_dumpsMTail kvs' rest) hszm]
            simp only [ih5 kvs' rest hgm hszr]
            rfl
      · -- parseJObjTail
        intro kvs rest hg hsz
        cases kvs with
        | nil =>
            rw [show dumpsMTail [] ++ rest = 125 :: rest by simp [dumpsMTail]]
            conv_lhs => unfold parseJObjTail
            rw [skipWs_cons_of 125 rest (by omega)]
            simp [headIs]
        | cons kv kvs' =>
            have hgsplit := hg
            simp only [goodNMembers, Bool.and_eq_true] at hgsplit
            have hgk : kv.1.all scalarB = true := hgsplit.1.1
            have hgv : goodN kv.2 = true := hgsplit.1.2
            have hgm : goodNMembers kvs' = true := hgsplit.2
            have hszm : kv.1.length + pySize kv.2 + 1 < f := by
              simp only [pySizeMembers] at hsz
              omega
            have hszr : pySizeMembers kvs' < f := by
              have := pySize_pos kv.2
              simp only [pySizeMembers] at hsz
              omega
            rw [show dumpsMTail (kv :: kvs') ++ rest =
              44 :: 32 :: (dumps0Members (kv :: kvs') ++ 125 :: rest) by simp [dumpsMTail]]
            conv_lhs => unfold parseJObjTail
            rw [skipWs_cons_of 44 _ (by omega)]
            rw [show headIs 125 (44 :: 32 :: (dumps0Members (kv :: kvs') ++ 125 :: rest)) =
              false by simp [headIs]]
            rw [show headIs 44 (44 :: 32 :: (dumps0Members (kv :: kvs') ++ 125 :: rest)) =
              true by simp [headIs]]
            simp only [Bool.false_eq_true, if_false, if_true, List.drop_succ_cons,
              List.drop_zero]
            rw [members_bridge]
            rw [skipWs_space]
            rw [skipWs_cons_of 34 _ (by omega)]
            rw [show headIs 34 (34 :: ((kv.1.map jsonEscapeChar).flatten ++ 34 :: 58 :: 32 ::
              (dumps0 kv.2 ++ (dumpsMTail kvs' ++ rest)))) = true by simp [headIs]]
            simp only [if_true, List.drop_succ_cons, List.drop_zero]
            rw [ih6 kv.1 kv.2 (dumpsMTail kvs' ++ rest) hgk hgv
              (intBoundary_dumpsMTail kvs' rest) hszm]
            simp only [ih5 kvs' rest hgm hszr]
            rfl
      · -- parseJMember
        intro k v rest hk hg hb hsz
        conv_lhs => unfold parseJMember
        rw [parseJStr_escape k hk (f + 1) (58 :: 32 :: (dumps0 v ++ rest)) (by omega)]
        simp only [skipWs_cons_of 58 _ (by omega)]
        rw [show headIs 58 (58 :: 32 :: (dumps0 v ++ rest)) = true by simp [headIs]]
        simp only [if_true, List.drop_succ_cons, List.drop_zero]
        rw [parseJVal_congr f (32 :: (dumps0 v ++ rest)) (dumps0 v ++ rest) (skipWs_space _)]
        rw [ih1 v rest hg hb (by omega)]
        rfl

/-! ## Fuel bound: `jsonLoads`'s recursion budget covers `dumps0` output -/

theorem jsonEscapeChar_len (c : Nat) : 1 ≤ (jsonEscapeChar c).length := by
  unfold jsonEscapeChar
  split_ifs <;> simp [hex4]

theorem natToDigitsF_len (f n : Nat) : 1 ≤ (natToDigitsF f n).length := by
  induction f generalizing n with
  | zero => simp [natToDigitsF]
  | succ f ih =>
      unfold natToDigitsF
      split_ifs with h
      · simp
      · simp

theorem intToStr_len (n : Int) : 1 ≤ (intToStr n).length := by
  cases n with
  | ofNat m => simpa [intToStr, natToDigits] using natToDigitsF_len m m
  | negSucc m => simp [intToStr]

theorem escFlatten_len (s : PyStr) :
    s.length ≤ ((s.map jsonEscapeChar).flatten).length := by
  induction s with
  | nil => simp
  | cons c cs ih =>
      simp only [List.map_cons, List.flatten_cons, List.length_append,
        List.length_cons]
      have := jsonEscapeChar_len c
      omega

theorem dumps0_size : ∀ f : Nat,
    (∀ v : PyVal, pySize v ≤ f → pySize v ≤ 2 * (dumps0 v).length) ∧
    (∀ xs : List PyVal, pySizeItems xs ≤ f →
      pySizeItems xs ≤ 2 * (dumps0Items xs).length + 2) ∧
    (∀ kvs : List (PyStr × PyVal), pySizeMembers kvs ≤ f →
      pySizeMembers kvs ≤ 2 * (dumps0Members kvs).length + 2) := by
  intro f
  induction f with
  | zero =>
      refine ⟨?_, ?_, ?_⟩
      · intro v h
        have := pySize_pos v
        omega
      · intro xs h
        omega
      · intro kvs h
        omega
  | succ f ih =>
      obtain ⟨ihV, ihI, ihM⟩ := ih
      refine ⟨?_, ?_, ?_⟩
      · intro v hsz
        cases v with
        | none =>
            have h4 : (dumps0 PyVal.none).length = 4 := rfl
            simp [pySize, h4]
        | bool b =>
            cases b
            · have h5 : (dumps0 (PyVal.bool false)).length = 5 := rfl
              simp [pySize, h5]
            · have h4 : (dumps0 (PyVal.bool true)).length = 4 := rfl
              simp [pySize, h4]
        | int n =>
            have := intToStr_len n
            have he : dumps0 (PyVal.int n) = intToStr n := rfl
            simp only [pySize, he]
            omega
        | str s =>
            have := escFlatten_len s
            have he : dumps0 (PyVal.str s) = jsonStrLit s := rfl
            simp only [pySize, he, jsonStrLit, List.length_append,
              List.length_cons, List.length_nil]
            omega
        | list xs =>
            have hi : pySizeItems xs ≤ f := by
              simp only [pySize] at hsz
              omega
            have := ihI xs hi
            simp only [pySize, dumps0, List.length_append, List.length_cons,
              List.length_nil]
            omega
        | tuple xs =>
            have hi : pySizeItems xs ≤ f := by
              simp only [pySize] at hsz
              omega
            have := ihI xs hi
            simp only [pySize, dumps0, List.length_append, List.length_cons,
              List.length_nil]
            omega
        | dict kvs =>
            have hi : pySizeMembers kvs ≤ f := by
              simp only [pySize] at hsz
              omega
            have := ihM kvs hi
            simp only [pySize, dumps0, List.length_append, List.length_cons,
              List.length_nil]
            omega
      · intro xs hsz
        match xs with
        | [] => simp [pySizeItems]
        | [x] =>
            have hx : pySize x ≤ f := by
              simp only [pySizeItems] at hsz
              omega
            have := ihV x hx
            simp only [pySizeItems, dumps0Items]
            omega
        | x :: y :: xs' =>
            have hx : pySize x ≤ f := by
              have h1 := pySize_pos y
              simp only [pySizeItems] at hsz
              omega
            have ht : pySizeItems (y :: xs') ≤ f := by
              have h1 := pySize_pos x
              simp only [pySizeItems] at hsz ⊢
              omega
            have hvx := ihV x hx
            have hit := ihI (y :: xs') ht
            have he : dumps0Items (x :: y :: xs') =
                dumps0 x ++ [44, 32] ++ dumps0Items (y :: xs') := rfl
            have he2 : pySizeItems (x :: y :: xs') =
                pySize x + pySizeItems (y :: xs') + 2 := rfl
            rw [he, he2]
            simp only [List.length_append, List.length_cons, List.length_nil]
            omega
      · intro kvs hsz
        match kvs with
        | [] => simp [pySizeMembers]
        | [kv] =>
            have hv : pySize kv.2 ≤ f := by
              simp only [pySizeMembers] at hsz
              omega
            have hvv := ihV kv.2 hv
            have hk := escFlatten_len kv.1
            have he : dumps0Members [kv] =
                jsonStrLit kv.1 ++ [58, 32] ++ dumps0 kv.2 := rfl
            have he2 : pySizeMembers [kv] =
                kv.1.length + pySize kv.2 + 2 := rfl
            rw [he, he2]
            simp only [jsonStrLit, List.length_append, List.length_cons,
              List.length_nil]
            omega
        | kv :: kv' :: kvs' =>
            have hv : pySize kv.2 ≤ f := by
              have h1 := pySize_pos kv'.2
              simp only [pySizeMembers] at hsz
              omega
            have ht : pySizeMembers (kv' :: kvs') ≤ f := by
              have h1 := pySize_pos kv.2
              simp only [pySizeMembers] at hsz ⊢
              omega
            have hvv := ihV kv.2 hv
            have hmt := ihM (kv' :: kvs') ht
            have hk := escFlatten_len kv.1
            have he : dumps0Members (kv :: kv' :: kvs') =
                jsonStrLit kv.1 ++ [58, 32] ++ dumps0 kv.2 ++ [44, 32] ++
                  dumps0Members (kv' :: kvs') := rfl
            have he2 : pySizeMembers (kv :: kv' :: kvs') =
                kv.1.length + pySize kv.2 + pySizeMembers (kv' :: kvs') + 2 := rfl
            rw [he, he2]
            simp only [jsonStrLit, List.length_append, List.length_cons,
              List.length_nil]
            omega

theorem pySize_le_dumps0 (v : PyVal) : pySize v ≤ 2 * (dumps0 v).length :=
  (dumps0_size (pySize v)).1 v (le_refl _)

/-! ## `json.loads` inverts `dumps0` on canonical values -/

theorem jsonLoads_dumps0 (v : PyVal) (h : goodN v = true) :
    jsonLoads (dumps0 v) = some v := by
  unfold jsonLoads
  have hfuel : pySize v < 2 * (dumps0 v).length + 2 := by
    have := pySize_le_dumps0 v
    omega
  have hp := (parse_sound (2 * (dumps0 v).length + 2)).1 v [] h rfl hfuel
  rw [List.append_nil] at hp
  rw [hp]
  rfl

/-! ## Key sorting is the identity on canonically ordered dicts -/

theorem strLt_asymm : ∀ a b : PyStr, strLt a b = true → ¬ strLt b a = true := by
  intro a
  induction a with
  | nil =>
      intro b h
      cases b with
      | nil => simp [strLt] at h
      | cons c cs => simp [strLt]
  | cons x xs ih =>
      intro b h
      cases b with
      | nil => simp [strLt] at h
      | cons y ys =>
          simp only [strLt, Bool.or_eq_true, Bool.and_eq_true,
            decide_eq_true_eq] at h ⊢
          rcases h with hlt | ⟨heq, hrec⟩
          · rintro (h2 | ⟨h2, _⟩)
            · omega
            · omega
          · rintro (h2 | ⟨h2, hrec2⟩)
            · omega
            · exact ih ys hrec hrec2

theorem sortKVs_sorted_id : ∀ kvs, sortedKeys kvs = true → sortKVs kvs = kvs := by
  intro kvs
  induction kvs with
  | nil =>
      intro _
      rfl
  | cons kv rest ih =>
      intro h
      cases rest with
      | nil => rfl
      | cons kv' rest' =>
          have h2 := h
          simp only [sortedKeys, Bool.and_eq_true] at h2
          have hstep : sortKVs (kv :: kv' :: rest') =
              insortKV kv (sortKVs (kv' :: rest')) := rfl
          rw [hstep, ih h2.2]
          have hnot : strLt kv'.1 kv.1 = false :=
            Bool.eq_false_iff.mpr (strLt_asymm _ _ h2.1)
          simp [insortKV, hnot]

/-! ## `jnorm` is the identity on canonical values -/

theorem jnorm_id : ∀ f : Nat,
    (∀ v : PyVal, pySize v ≤ f → goodN v = true → jnorm v = v) ∧
    (∀ xs : List PyVal, pySizeItems xs ≤ f → goodNItems xs = true →
      jnormItems xs = xs) ∧
    (∀ kvs : List (PyStr × PyVal), pySizeMembers kvs ≤ f →
      goodNMembers kvs = true → jnormMembers kvs = kvs) := by
  intro f
  induction f with
  | zero =>
      refine ⟨?_, ?_, ?_⟩
      · intro v h _
        have := pySize_pos v
        omega
      · intro xs h _
        cases xs with
        | nil => rfl
        | cons x xs' =>
            simp only [pySizeItems] at h
            omega
      · intro kvs h _
        cases kvs with
        | nil => rfl
        | cons kv kvs' =>
            simp only [pySizeMembers] at h
            omega
  | succ f ih =>
      obtain ⟨ihV, ihI, ihM⟩ := ih
      refine ⟨?_, ?_, ?_⟩
      · intro v hsz hg
        cases v with
        | none => rfl
        | bool b => rfl
        | int n => rfl
        | str s => rfl
        | tuple xs => simp [goodN] at hg
        | list xs =>
            have hi : pySizeItems xs ≤ f := by
              simp only [pySize] at hsz
              omega
            have hgi : goodNItems xs = true := by simpa [goodN] using hg
            simp only [jnorm]
            rw [ihI xs hi hgi]
        | dict kvs =>
            have hi : pySizeMembers kvs ≤ f := by
              simp only [pySize] at hsz
              omega
            have h2 := hg
            simp only [goodN, Bool.and_eq_true] at h2
            simp only [jnorm]
            rw [ihM kvs hi h2.2, sortKVs_sorted_id kvs h2.1]
      · intro xs hsz hg
        cases xs with
        | nil => rfl
        | cons x xs' =>
            have h2 := hg
            simp only [goodNItems, Bool.and_eq_true] at h2
            have hx : pySize x ≤ f := by
              simp only [pySizeItems] at hsz
              omega
            have hxs : pySizeItems xs' ≤ f := by
              have := pySize_pos x
              simp only [pySizeItems] at hsz
              omega
            simp only [jnormItems]
            rw [ihV x hx h2.1, ihI xs' hxs h2.2]
      · intro kvs hsz hg
        cases kvs with
        | nil => rfl
        | cons kv kvs' =>
            have h2 := hg
            simp only [goodNMembers, Bool.and_eq_true] at h2
            have hv : pySize kv.2 ≤ f := by
              simp only [pySizeMembers] at hsz
              omega
            have hm : pySizeMembers kvs' ≤ f := by
              have := pySize_pos kv.2
              simp only [pySizeMembers] at hsz
              omega
            simp only [jnormMembers]
            rw [ihV kv.2 hv h2.1.2, ihM kvs' hm h2.2]

theorem jnorm_eq_self (v : PyVal) (h : goodN v = true) : jnorm v = v :=
  (jnorm_id (pySize v)).1 v (le_refl _) h

theorem jsonDumps_eq_dumps0 (v : PyVal) (h : goodN v = true) :
    jsonDumps v = dumps0 v := by
  unfold jsonDumps
  rw [jnorm_eq_self v h]

/-! ## Character classes of the encoded line -/

theorem scalarB_ascii (c : Nat) (h : c < 128) : scalarB c = true := by
  simp only [scalarB, decide_eq_true_eq]
  omega

theorem hexDigit_range (n : Nat) (h : n < 16) :
    48 ≤ hexDigit n ∧ hexDigit n ≤ 102 := by
  unfold hexDigit
  split_ifs <;> omega

theorem bytesToHex_range (bs : PyBytes) (h : ∀ b ∈ bs, b < 256) :
    ∀ c ∈ bytesToHex bs, 48 ≤ c ∧ c ≤ 102 := by
  induction bs with
  | nil =>
      intro c hc
      simp [bytesToHex] at hc
  | cons b bs ih =>
      intro c hc
      have hb : b < 256 := h b (List.mem_cons_self _ _)
      have hstep : bytesToHex (b :: bs) =
          hexDigit (b / 16) :: hexDigit (b % 16) :: bytesToHex bs := by
        simp [bytesToHex]
      rw [hstep] at hc
      simp only [List.mem_cons] at hc
      rcases hc with hc | hc | hc
      · rw [hc]
        exact hexDigit_range _ (by omega)
      · rw [hc]
        exact hexDigit_range _ (Nat.mod_lt _ (by omega))
      · exact ih (fun x hx => h x (List.mem_cons_of_mem _ hx)) c hc

theorem utf8Encode_lt_256 (s : PyStr) (h : s.all scalarB = true) :
    ∀ b ∈ utf8Encode s, b < 256 := by
  intro b hb
  unfold utf8Encode at hb
  rw [List.mem_flatten] at hb
  obtain ⟨l, hl, hbl⟩ := hb
  rw [List.mem_map] at hl
  obtain ⟨c, hcs, hcl⟩ := hl
  have hsc : scalarB c = true := by
    rw [List.all_eq_true] at h
    exact h c hcs
  simp only [scalarB, decide_eq_true_eq] at hsc
  exact utf8EncodeChar_bytes_lt c (by omega) b (hcl ▸ hbl)

theorem scalarB_hexDigit (n : Nat) (h : n < 16) : scalarB (hexDigit n) = true := by
  have := hexDigit_range n h
  exact scalarB_ascii _ (by omega)

theorem hex4_all_scalar (n : Nat) : (hex4 n).all scalarB = true := by
  have h1 := scalarB_hexDigit (n / 4096 % 16) (Nat.mod_lt _ (by omega))
  have h2 := scalarB_hexDigit (n / 256 % 16) (Nat.mod_lt _ (by omega))
  have h3 := scalarB_hexDigit (n / 16 % 16) (Nat.mod_lt _ (by omega))
  have h4 := scalarB_hexDigit (n % 16) (Nat.mod_lt _ (by omega))
  simp [hex4, h1, h2, h3, h4]

theorem jsonEscapeChar_all_scalar (c : Nat) :
    (jsonEscapeChar c).all scalarB = true := by
  unfold jsonEscapeChar
  split_ifs with h1 h2 h3 h4 h5 h6 h7 h8 h9
  · decide
  · decide
  · decide
  · decide
  · decide
  · decide
  · decide
  · simp only [List.all_cons, List.all_nil, Bool.and_true]
    exact scalarB_ascii c (by omega)
  · rw [List.all_append, hex4_all_scalar]
    decide
  · rw [List.all_append, List.all_append, List.all_append,
      hex4_all_scalar, hex4_all_scalar]
    decide

theorem escFlatten_all_scalar (s : PyStr) :
    ((s.map jsonEscapeChar).flatten).all scalarB = true := by
  induction s with
  | nil => rfl
  | cons c cs ih =>
      simp only [List.map_cons, List.flatten_cons, List.all_append,
        Bool.and_eq_true]
      exact ⟨jsonEscapeChar_all_scalar c, ih⟩

theorem jsonStrLit_all_scalar (s : PyStr) : (jsonStrLit s).all scalarB = true := by
  rw [jsonStrLit, List.all_append, List.all_append, escFlatten_all_scalar]
  decide

theorem natToDigitsF_range (f : Nat) : ∀ n : Nat, ∀ c ∈ natToDigitsF f n,
    48 ≤ c ∧ c ≤ 57 := by
  induction f with
  | zero =>
      intro n c hc
      simp only [natToDigitsF, List.mem_singleton] at hc
      have := Nat.mod_lt n (show 0 < 10 by omega)
      omega
  | succ f ih =>
      intro n c hc
      unfold natToDigitsF at hc
      split_ifs at hc with h
      · simp only [List.mem_singleton] at hc
        omega
      · rw [List.mem_append] at hc
        rcases hc with hc | hc
        · exact ih _ c hc
        · simp only [List.mem_singleton] at hc
          have := Nat.mod_lt n (show 0 < 10 by omega)
          omega

theorem intToStr_range (n : Int) : ∀ c ∈ intToStr n, 45 ≤ c ∧ c ≤ 57 := by
  intro c hc
  cases n with
  | ofNat m =>
      have := natToDigitsF_range m m c (by simpa [intToStr, natToDigits] using hc)
      omega
  | negSucc m =>
      simp only [intToStr, List.mem_cons] at hc
      rcases hc with hc | hc
      · omega
      · have := natToDigitsF_range (m + 1) (m + 1) c hc
        omega

theorem intToStr_all_scalar (n : Int) : (intToStr n).all scalarB = true := by
  rw [List.all_eq_true]
  intro c hc
  have := intToStr_range n c hc
  exact scalarB_ascii c (by omega)

theorem dumps0_all_scalar : ∀ f : Nat,
    (∀ v : PyVal, pySize v ≤ f → (dumps0 v).all scalarB = true) ∧
    (∀ xs : List PyVal, pySizeItems xs ≤ f →
      (dumps0Items xs).all scalarB = true) ∧
    (∀ kvs : List (PyStr × PyVal), pySizeMembers kvs ≤ f →
      (dumps0Members kvs).all scalarB = true) := by
  intro f
  induction f with
  | zero =>
      refine ⟨?_, ?_, ?_⟩
      · intro v h
        have := pySize_pos v
        omega
      · intro xs h
        cases xs with
        | nil => rfl
        | cons x xs' =>
            simp only [pySizeItems] at h
            omega
      · intro kvs h
        cases kvs with
        | nil => rfl
        | cons kv kvs' =>
            simp only [pySizeMembers] at h
            omega
  | succ f ih =>
      obtain ⟨ihV, ihI, ihM⟩ := ih
      refine ⟨?_, ?_, ?_⟩
      · intro v hsz
        cases v with
        | none => decide
        | bool b => cases b <;> decide
        | int n => exact intToStr_all_scalar n
        | str s => exact jsonStrLit_all_scalar s
        | list xs =>
            have hi : pySizeItems xs ≤ f := by
              simp only [pySize] at hsz
              omega
            show ([91] ++ dumps0Items xs ++ [93]).all scalarB = true
            rw [List.all_append, List.all_append, ihI xs hi]
            decide
        | tuple xs =>
            have hi : pySizeItems xs ≤ f := by
              simp only [pySize] at hsz
              omega
            show ([91] ++ dumps0Items xs ++ [93]).all scalarB = true
            rw [List.all_append, List.all_append, ihI xs hi]
            decide
        | dict kvs =>
            have hi : pySizeMembers kvs ≤ f := by
              simp only [pySize] at hsz
              omega
            show ([123] ++ dumps0Members kvs ++ [125]).all scalarB = true
            rw [List.all_append, List.all_append, ihM kvs hi]
            decide
      · intro xs hsz
        match xs with
        | [] => rfl
        | [x] =>
            have hx : pySize x ≤ f := by
              simp only [pySizeItems] at hsz
              omega
            show (dumps0 x).all scalarB = true
            exact ihV x hx
        | x :: y :: xs' =>
            have hx : pySize x ≤ f := by
              have := pySize_pos y
              simp only [pySizeItems] at hsz
              omega
            have ht : pySizeItems (y :: xs') ≤ f := by
              have := pySize_pos x
              simp only [pySizeItems] at hsz ⊢
              omega
            show (dumps0 x ++ [44, 32] ++ dumps0Items (y :: xs')).all scalarB = true
            rw [List.all_append, List.all_append, ihV x hx, ihI _ ht]
            decide
      · intro kvs hsz
        match kvs with
        | [] => rfl
        | [kv] =>
            have hv : pySize kv.2 ≤ f := by
              simp only [pySizeMembers] at hsz
              omega
            show (jsonStrLit kv.1 ++ [58, 32] ++ dumps0 kv.2).all scalarB = true
            rw [List.all_append, List.all_append, jsonStrLit_all_scalar,
              ihV kv.2 hv]
            decide
        | kv :: kv' :: kvs' =>
            have hv : pySize kv.2 ≤ f := by
              have := pySize_pos kv'.2
              simp only [pySizeMembers] at hsz
              omega
            have ht : pySizeMembers (kv' :: kvs') ≤ f := by
              have := pySize_pos kv.2
              simp only [pySizeMembers] at hsz ⊢
              omega
            show (jsonStrLit kv.1 ++ [58, 32] ++ dumps0 kv.2 ++ [44, 32] ++
              dumps0Members (kv' :: kvs')).all scalarB = true
            rw [List.all_append, List.all_append, List.all_append,
              List.all_append, jsonStrLit_all_scalar, ihV kv.2 hv, ihM _ ht]
            decide

theorem dumps0_scalar (v : PyVal) : (dumps0 v).all scalarB = true :=
  (dumps0_all_scalar (pySize v)).1 v (le_refl _)

/-! ## Line and field splitting of the encoded text -/

theorem dropWhile10_id (s : PyStr) (h : ∀ c ∈ s, ¬ c = 10) :
    s.dropWhile (fun c => c = 10) = s := by
  cases s with
  | nil => rfl
  | cons c rest =>
      have := h c (List.mem_cons_self _ _)
      simp [List.dropWhile_cons, this]

theorem stripNl_id (s : PyStr) (h : ∀ c ∈ s, ¬ c = 10) : stripNl s = s := by
  unfold stripNl
  rw [dropWhile10_id s h,
    dropWhile10_id _ (fun c hc => h c (List.mem_reverse.mp hc)),
    List.reverse_reverse]

theorem takeLine_append (body rest : PyStr)
    (h : ∀ c ∈ body, isLineBreak c = false) :
    takeLine (body ++ 10 :: rest) = (body, some rest) := by
  induction body with
  | nil =>
      simp only [List.nil_append]
      unfold takeLine
      norm_num [isLineBreak, headIs]
  | cons c body' ih =>
      have hc := h c (List.mem_cons_self _ _)
      have hc13 : ¬ c = 13 := by
        intro h13
        rw [h13] at hc
        exact absurd hc (by decide)
      have hih := ih (fun x hx => h x (List.mem_cons_of_mem _ hx))
      simp only [List.cons_append]
      unfold takeLine
      simp [hc13, hc, hih]

theorem takeLine_shorter : ∀ s l r, takeLine s = (l, some r) →
    r.length < s.length := by
  intro s
  induction s with
  | nil =>
      intro l r h
      simp [takeLine] at h
  | cons c rest ih =>
      intro l r h
      unfold takeLine at h
      by_cases h1 : c = 13 ∧ headIs 10 rest = true
      · rw [if_pos h1] at h
        simp only [Prod.mk.injEq, Option.some.injEq] at h
        rw [← h.2]
        simp only [List.length_drop, List.length_cons]
        omega
      · rw [if_neg h1] at h
        by_cases h2 : isLineBreak c = true
        · rw [if_pos h2] at h
          simp only [Prod.mk.injEq, Option.some.injEq] at h
          rw [← h.2]
          simp
        · rw [if_neg h2] at h
          rcases htr : takeLine rest with ⟨l', r'⟩
          rw [htr] at h
          simp only [Prod.mk.injEq] at h
          cases r' with
          | none => simp at h
          | some r'' =>
              have := ih l' r'' htr
              simp only [Option.some.injEq] at h
              rw [← h.2]
              simp only [List.length_cons]
              omega

theorem splitlinesF_congr : ∀ f g s, s.length ≤ f → s.length ≤ g →
    splitlinesF f s = splitlinesF g s := by
  intro f
  induction f with
  | zero =>
      intro g s hf hg
      have hnil : s = [] := List.eq_nil_of_length_eq_zero (by omega)
      subst hnil
      cases g <;> rfl
  | succ f ih =>
      intro g s hf hg
      cases s with
      | nil => cases g <;> rfl
      | cons c rest =>
          cases g with
          | zero => simp at hg
          | succ m =>
              show splitlinesF (f + 1) (c :: rest) = splitlinesF (m + 1) (c :: rest)
              unfold splitlinesF
              rcases htr : takeLine (c :: rest) with ⟨l, r⟩
              cases r with
              | none => simp [htr]
              | some r' =>
                  have hlen := takeLine_shorter (c :: rest) l r' htr
                  simp only [List.length_cons] at hlen hf hg
                  simp only [htr]
                  rw [ih m r' (by omega) (by omega)]

theorem splitlines_cons (body rest : PyStr)
    (h : ∀ c ∈ body, isLineBreak c = false) :
    splitlines (body ++ 10 :: rest) = body :: splitlines rest := by
  unfold splitlines
  have hlen : (body ++ 10 :: rest).length = body.length + rest.length + 1 := by
    simp
    omega
  rw [hlen]
  cases body with
  | nil =>
      simp only [List.nil_append, List.length_nil]
      show splitlinesF (0 + rest.length + 1) (10 :: rest) =
        [] :: splitlinesF rest.length rest
      have ht : takeLine (10 :: rest) = ([], some rest) := by
        have := takeLine_append [] rest (fun c hc => absurd hc (List.not_mem_nil c))
        simpa using this
      conv_lhs => rw [splitlinesF]
      simp only [ht]
      rw [splitlinesF_congr (0 + rest.length) rest.length rest (by omega) (le_refl _)]
  | cons b body' =>
      simp only [List.cons_append, List.length_cons]
      show splitlinesF (body'.length + 1 + rest.length + 1)
          (b :: (body' ++ 10 :: rest)) =
        (b :: body') :: splitlinesF rest.length rest
      have hfs : body'.length + 1 + rest.length + 1 =
          (body'.length + 1 + rest.length) + 1 := rfl
      rw [hfs]
      have ht : takeLine (b :: (body' ++ 10 :: rest)) = (b :: body', some rest) := by
        have := takeLine_append (b :: body') rest h
        simpa using this
      conv_lhs => rw [splitlinesF]
      simp only [ht]
      rw [splitlinesF_congr (body'.length + 1 + rest.length) rest.length rest
        (by omega) (le_refl _)]

theorem pySplit_no_sep (sep : Nat) (a : PyStr) (h : ∀ c ∈ a, ¬ c = sep) :
    pySplit sep a = [a] := by
  induction a with
  | nil => rfl
  | cons c rest ih =>
      have hc := h c (List.mem_cons_self _ _)
      have hr := ih (fun x hx => h x (List.mem_cons_of_mem _ hx))
      unfold pySplit
      rw [if_neg hc, hr]

theorem pySplit_sep_append (sep : Nat) (a r : PyStr) (h : ∀ c ∈ a, ¬ c = sep) :
    pySplit sep (a ++ sep :: r) = a :: pySplit sep r := by
  induction a with
  | nil =>
      simp only [List.nil_append]
      conv_lhs => rw [pySplit]
      rw [if_pos rfl]
  | cons c rest ih =>
      have hc := h c (List.mem_cons_self _ _)
      have hr := ih (fun x hx => h x (List.mem_cons_of_mem _ hx))
      simp only [List.cons_append]
      conv_lhs => rw [pySplit]
      rw [if_neg hc, hr]

theorem pySplit_three (a b c : PyStr) (ha : ∀ x ∈ a, ¬ x = 47)
    (hb : ∀ x ∈ b, ¬ x = 47) (hc : ∀ x ∈ c, ¬ x = 47) :
    pySplit 47 (a ++ 47 :: (b ++ 47 :: c)) = [a, b, c] := by
  rw [pySplit_sep_append 47 a _ ha, pySplit_sep_append 47 b _ hb,
    pySplit_no_sep 47 c hc]

/-! ## One encoded line decodes to its key/value pair -/

theorem encodeLine_eq (k : PyStr) (v : PyVal) :
    encodeLine k v =
      (typeTag v ++ 47 :: (k ++ 47 :: bytesToHex (utf8Encode (valText v)))) ++
        [10] := by
  cases v <;>
    simp [encodeLine, typeTag, valText, seqTypeName, pystr, jsonDumps]

theorem valText_scalar (v : PyVal) (h : goodTop v = true) :
    (valText v).all scalarB = true := by
  cases v with
  | none => decide
  | bool b => cases b <;> decide
  | int n => exact intToStr_all_scalar n
  | str s => simpa [valText, goodTop] using h
  | list xs =>
      show (jsonDumps (PyVal.list xs)).all scalarB = true
      unfold jsonDumps
      exact dumps0_scalar _
  | tuple xs =>
      show (jsonDumps (PyVal.tuple xs)).all scalarB = true
      unfold jsonDumps
      exact dumps0_scalar _
  | dict kvs =>
      show (jsonDumps (PyVal.dict kvs)).all scalarB = true
      unfold jsonDumps
      exact dumps0_scalar _

theorem isLineBreak_false_of (c : Nat)
    (h : ¬ c = 10 ∧ ¬ c = 13 ∧ ¬ c = 11 ∧ ¬ c = 12 ∧ ¬ c = 28 ∧ ¬ c = 29 ∧
      ¬ c = 30 ∧ ¬ c = 133 ∧ ¬ c = 8232 ∧ ¬ c = 8233) :
    isLineBreak c = false := by
  unfold isLineBreak
  apply decide_eq_false
  omega

theorem typeTag_range (v : PyVal) : ∀ x ∈ typeTag v, 78 ≤ x ∧ x ≤ 117 := by
  cases v with
  | none => exact (by decide : ∀ x ∈ pystr "None", 78 ≤ x ∧ x ≤ 117)
  | bool b => exact (by decide : ∀ x ∈ pystr "bool", 78 ≤ x ∧ x ≤ 117)
  | int n => exact (by decide : ∀ x ∈ pystr "int", 78 ≤ x ∧ x ≤ 117)
  | str s => exact (by decide : ∀ x ∈ pystr "str", 78 ≤ x ∧ x ≤ 117)
  | list xs => exact (by decide : ∀ x ∈ pystr "list", 78 ≤ x ∧ x ≤ 117)
  | tuple xs => exact (by decide : ∀ x ∈ pystr "tuple", 78 ≤ x ∧ x ≤ 117)
  | dict kvs => exact (by decide : ∀ x ∈ pystr "dict", 78 ≤ x ∧ x ≤ 117)

theorem typeTag_no47 (v : PyVal) : ∀ x ∈ typeTag v, ¬ x = 47 := by
  intro x hx
  have := typeTag_range v x hx
  omega

theorem typeTag_nobreak (v : PyVal) : ∀ x ∈ typeTag v, isLineBreak x = false := by
  intro x hx
  have := typeTag_range v x hx
  exact isLineBreak_false_of x (by omega)

theorem typeTag_scalar (v : PyVal) : ∀ x ∈ typeTag v, scalarB x = true := by
  intro x hx
  have := typeTag_range v x hx
  exact scalarB_ascii x (by omega)

theorem safeKeyChar_bounds (c : Nat) (h : safeKeyChar c = true) :
    32 ≤ c ∧ c ≤ 126 ∧ ¬ c = 47 := by
  simpa [safeKeyChar, decide_eq_true_eq] using h

theorem lineBody_char (k : PyStr) (v : PyVal) (hk : k.all safeKeyChar = true)
    (hv : goodTop v = true) :
    ∀ c ∈ typeTag v ++ 47 :: (k ++ 47 :: bytesToHex (utf8Encode (valText v))),
      scalarB c = true ∧ isLineBreak c = false := by
  intro c hc
  simp only [List.mem_append, List.mem_cons] at hc
  rcases hc with hc | hc | hc | hc | hc
  · exact ⟨typeTag_scalar v c hc, typeTag_nobreak v c hc⟩
  · rw [hc]
    exact ⟨by decide, by decide⟩
  · have hs : safeKeyChar c = true := by
      rw [List.all_eq_true] at hk
      exact hk c hc
    have hb := safeKeyChar_bounds c hs
    exact ⟨scalarB_ascii c (by omega), isLineBreak_false_of c (by omega)⟩
  · rw [hc]
    exact ⟨by decide, by decide⟩
  · have hb := bytesToHex_range _ (utf8Encode_lt_256 _ (valText_scalar v hv)) c hc
    exact ⟨scalarB_ascii c (by omega), isLineBreak_false_of c (by omega)⟩

theorem decodeTyped_valText (v : PyVal) (h : goodTop v = true) :
    decodeTyped (typeTag v) (valText v) = some v := by
  cases v with
  | none =>
      show decodeTyped (pystr "None") (pystr "None") = some PyVal.none
      unfold decodeTyped
      rw [if_neg (by decide), if_pos rfl]
  | bool b =>
      cases b with
      | false => simp [goodTop] at h
      | true =>
          show decodeTyped (pystr "bool") (strOfBool true) = some (PyVal.bool true)
          unfold decodeTyped
          rw [if_neg (by decide), if_neg (by decide), if_neg (by decide),
            if_neg (by decide), if_neg (by decide), if_pos rfl]
          rfl
  | int n =>
      show decodeTyped (pystr "int") (intToStr n) = some (PyVal.int n)
      unfold decodeTyped
      rw [if_neg (by decide), if_neg (by decide), if_neg (by decide),
        if_neg (by decide), if_neg (by decide), if_neg (by decide), if_pos rfl]
      rw [pyIntParse_intToStr]
      rfl
  | str s =>
      show decodeTyped (pystr "str") s = some (PyVal.str s)
      unfold decodeTyped
      rw [if_neg (by decide), if_neg (by decide), if_pos rfl]
  | list xs =>
      have hgood : goodN (PyVal.list xs) = true := h
      show decodeTyped (pystr "list") (jsonDumps (PyVal.list xs)) =
        some (PyVal.list xs)
      unfold decodeTyped
      rw [if_neg (by decide), if_neg (by decide), if_neg (by decide),
        if_pos rfl]
      rw [jsonDumps_eq_dumps0 _ hgood, jsonLoads_dumps0 _ hgood]
      rfl
  | tuple xs =>
      have hxs : goodNItems xs = true := h
      have hlist : goodN (PyVal.list xs) = true := hxs
      show decodeTyped (pystr "tuple") (jsonDumps (PyVal.tuple xs)) =
        some (PyVal.tuple xs)
      unfold decodeTyped
      rw [if_neg (by decide), if_neg (by decide), if_neg (by decide),
        if_neg (by decide), if_pos rfl]
      have hval : jsonDumps (PyVal.tuple xs) = dumps0 (PyVal.list xs) := by
        unfold jsonDumps
        have hnorm : jnorm (PyVal.tuple xs) = PyVal.list xs := by
          simp only [jnorm]
          rw [(jnorm_id (pySizeItems xs)).2.1 xs (le_refl _) hxs]
        rw [hnorm]
      rw [hval, jsonLoads_dumps0 _ hlist]
      rfl
  | dict kvs =>
      have hgood : goodN (PyVal.dict kvs) = true := h
      show decodeTyped (pystr "dict") (jsonDumps (PyVal.dict kvs)) =
        some (PyVal.dict kvs)
      unfold decodeTyped
      rw [if_pos (Or.inl rfl)]
      rw [jsonDumps_eq_dumps0 _ hgood, jsonLoads_dumps0 _ hgood]

theorem decodeLine_body (acc : PyDict) (k : PyStr) (v : PyVal)
    (hk : k.all safeKeyChar = true) (hv : goodTop v = true) :
    decodeLine acc
      (typeTag v ++ 47 :: (k ++ 47 :: bytesToHex (utf8Encode (valText v)))) =
      some (dictSet acc k v) := by
  have hchar := lineBody_char k v hk hv
  have h10 : ∀ c ∈ typeTag v ++ 47 ::
      (k ++ 47 :: bytesToHex (utf8Encode (valText v))), ¬ c = 10 := by
    intro c hc he
    have := (hchar c hc).2
    rw [he] at this
    exact absurd this (by decide)
  have hk47 : ∀ x ∈ k, ¬ x = 47 := by
    intro x hx
    have hs : safeKeyChar x = true := by
      rw [List.all_eq_true] at hk
      exact hk x hx
    exact (safeKeyChar_bounds x hs).2.2
  have hhex47 : ∀ x ∈ bytesToHex (utf8Encode (valText v)), ¬ x = 47 := by
    intro x hx
    have := bytesToHex_range _ (utf8Encode_lt_256 _ (valText_scalar v hv)) x hx
    omega
  have hne : ¬ typeTag v ++ 47 ::
      (k ++ 47 :: bytesToHex (utf8Encode (valText v))) = [] := by
    simp
  simp only [decodeLine]
  rw [stripNl_id _ h10]
  rw [if_neg hne]
  rw [pySplit_three _ _ _ (typeTag_no47 v) hk47 hhex47]
  simp only [tryFromHex_bytesToHex _ (utf8Encode_lt_256 _ (valText_scalar v hv)),
    utf8_roundtrip _ (valText_scalar v hv), decodeTyped_valText v hv]

/-! ## Folding the decoded lines rebuilds the payload dict -/

theorem dictSet_fresh (acc : PyDict) (k : PyStr) (v : PyVal)
    (h : k ∉ acc.map Prod.fst) : dictSet acc k v = acc ++ [(k, v)] := by
  unfold dictSet
  have hany : acc.any (fun kv => kv.1 = k) = false := by
    rw [List.any_eq_false]
    intro kv hkv
    simp only [decide_eq_true_eq]
    intro he
    exact h (List.mem_map.mpr ⟨kv, hkv, he⟩)
  rw [hany]
  simp

theorem foldlM_decode (d : PyDict) : ∀ acc : PyDict,
    (∀ kv ∈ d, kv.1.all safeKeyChar = true) →
    (∀ kv ∈ d, goodTop kv.2 = true) →
    (d.map Prod.fst).Nodup →
    (∀ kv ∈ d, kv.1 ∉ acc.map Prod.fst) →
    (splitlines ((d.map (fun kv => encodeLine kv.1 kv.2)).flatten)).foldlM
      decodeLine acc = some (acc ++ d) := by
  induction d with
  | nil =>
      intro acc _ _ _ _
      simp [splitlines, splitlinesF]
  | cons kv d' ih =>
      intro acc hk hv hnd hdisj
      have hkv1 : kv.1.all safeKeyChar = true := hk kv (List.mem_cons_self _ _)
      have hkv2 : goodTop kv.2 = true := hv kv (List.mem_cons_self _ _)
      have hchar := lineBody_char kv.1 kv.2 hkv1 hkv2
      rw [List.map_cons, List.flatten_cons, encodeLine_eq]
      rw [List.append_assoc, List.singleton_append]
      rw [splitlines_cons _ _ (fun c hc => (hchar c hc).2)]
      rw [List.foldlM_cons]
      rw [decodeLine_body acc kv.1 kv.2 hkv1 hkv2]
      have hfresh : kv.1 ∉ acc.map Prod.fst := hdisj kv (List.mem_cons_self _ _)
      rw [dictSet_fresh acc kv.1 kv.2 hfresh]
      have hnd' : (d'.map Prod.fst).Nodup := by
        rw [List.map_cons, List.nodup_cons] at hnd
        exact hnd.2
      have hnotin : kv.1 ∉ d'.map Prod.fst := by
        rw [List.map_cons, List.nodup_cons] at hnd
        exact hnd.1
      have hdisj' : ∀ kv' ∈ d', kv'.1 ∉ (acc ++ [(kv.1, kv.2)]).map Prod.fst := by
        intro kv' hkv'
        rw [List.map_append, List.mem_append]
        rintro (hin | hin)
        · exact hdisj kv' (List.mem_cons_of_mem _ hkv') hin
        · simp only [List.map_cons, List.map_nil, List.mem_singleton] at hin
          exact hnotin (hin ▸ List.mem_map.mpr ⟨kv', hkv', rfl⟩)
      have := ih (acc ++ [(kv.1, kv.2)])
        (fun x hx => hk x (List.mem_cons_of_mem _ hx))
        (fun x hx => hv x (List.mem_cons_of_mem _ hx)) hnd' hdisj'
      simp only [Option.bind_eq_bind, Option.some_bind] at this ⊢
      rw [this]
      simp

/-- C1 counterexample: the payload `{'k': False}` comes back as
`{'k': True}`, because `decode_package` rebuilds a `bool` line with
`bool(value)` on the decoded string, and `bool('False')` is `True` —
so decoding is not the exact inverse of encoding on all supported
payloads. -/
theorem decode_encode_not_inverse :
    decode_package (encode_package [([107], PyVal.bool false)]) =
      some [([107], PyVal.bool true)] := by
  rfl

/-- C1 (amended): on payload mappings whose keys are printable-ASCII
strings free of the field separator `/` and pairwise distinct, and whose
values avoid the known defects (no `False` at top level, scalar-valued
strings, no tuples nested inside containers, dict keys in canonical
sorted order), the Simple line codec is exactly inverted by its decoder:
`decode_package (encode_package d) = d`. -/
theorem decode_encode_roundtrip (d : PyDict)
    (hk : ∀ kv ∈ d, kv.1.all safeKeyChar = true)
    (hv : ∀ kv ∈ d, goodTop kv.2 = true)
    (hnd : (d.map Prod.fst).Nodup) :
    decode_package (encode_package d) = some d := by
  have htext : ((d.map (fun kv => encodeLine kv.1 kv.2)).flatten).all scalarB
      = true := by
    rw [List.all_eq_true]
    intro c hc
    rw [List.mem_flatten] at hc
    obtain ⟨l, hl, hcl⟩ := hc
    rw [List.mem_map] at hl
    obtain ⟨kv, hkv, hlkv⟩ := hl
    have hchar := lineBody_char kv.1 kv.2 (hk kv hkv) (hv kv hkv)
    rw [← hlkv, encodeLine_eq] at hcl
    rw [List.mem_append, List.mem_singleton] at hcl
    rcases hcl with hcl | hcl
    · exact (hchar c hcl).1
    · rw [hcl]
      decide
  unfold decode_package encode_package
  rw [utf8_roundtrip _ htext]
  have := foldlM_decode d [] hk hv hnd (by simp)
  simpa using this

/-- C1 roundtrip witness: a payload with one entry of each supported kind,
including a nested dict and list, decodes back to itself. -/
theorem decode_encode_roundtrip_witness :
    decode_package (encode_package
      [(pystr "num", PyVal.int (-12)),
       (pystr "flag", PyVal.bool true),
       (pystr "name", PyVal.str (pystr "hi")),
       (pystr "nothing", PyVal.none),
       (pystr "seq", PyVal.list [PyVal.int 1, PyVal.str (pystr "x")]),
       (pystr "pair", PyVal.tuple [PyVal.int 2, PyVal.none]),
       (pystr "table", PyVal.dict
         [(pystr "a", PyVal.int 7), (pystr "b", PyVal.list [PyVal.none])])]) =
      some
      [(pystr "num", PyVal.int (-12)),
       (pystr "flag", PyVal.bool true),
       (pystr "name", PyVal.str (pystr "hi")),
       (pystr "nothing", PyVal.none),
       (pystr "seq", PyVal.list [PyVal.int 1, PyVal.str (pystr "x")]),
       (pystr "pair", PyVal.tuple [PyVal.int 2, PyVal.none]),
       (pystr "table", PyVal.dict
         [(pystr "a", PyVal.int 7), (pystr "b", PyVal.list [PyVal.none])])] :=
  decode_encode_roundtrip _ (by decide) (by decide) (by decide)

/-! Theorems for claim C2. -/

/-- C2 counterexample: the claim demands `is_key_legal` reject the empty
string, but the source's character loop is vacuous on it, so the empty
string is accepted. -/
theorem is_key_legal_empty_string_accepted :
    is_key_legal (Option.some []) = true := by
  decide

/-- C2 (amended): on ASCII inputs, `is_key_legal` returns `true` exactly when
every character is an ASCII letter (either case) or an underscore.  The
empty string is accepted, uppercase letters are accepted (the key is
lowercased before the membership test), digits and punctuation are rejected,
and non-string inputs are rejected. -/
theorem is_key_legal_ascii_characterisation (s : PyStr) (hascii : ∀ c ∈ s, c < 128) :
    is_key_legal (Option.some s) = true ↔
      ∀ c ∈ s, (97 ≤ c ∧ c ≤ 122) ∨ (65 ≤ c ∧ c ≤ 90) ∨ c = 95 := by
  unfold is_key_legal
  rw [List.all_eq_true]
  constructor
  · intro h c hc
    have hcp := h (pyLowerChar c) (List.mem_map_of_mem pyLowerChar hc)
    have hlt := hascii c hc
    simp only [decide_eq_true_eq] at hcp
    unfold pyLowerChar at hcp
    unfold LEGAL_TOKENS at hcp
    by_cases hup : 65 ≤ c ∧ c ≤ 90
    · exact Or.inr (Or.inl hup)
    · simp only [hup, if_false] at hcp
      rcases List.mem_append.mp hcp with hm | hm
      · obtain ⟨i, hi, hic⟩ := List.mem_map.mp hm
        have : i < 26 := List.mem_range.mp hi
        left
        omega
      · simp only [List.mem_singleton] at hm
        right; right; omega
  · intro h x hx
    obtain ⟨c, hc, rfl⟩ := List.mem_map.mp hx
    rcases h c hc with hlo | hup | hund
    · have h1 : pyLowerChar c = c := by
        unfold pyLowerChar; simp only [ite_eq_right_iff]; omega
      rw [h1, h1]
      simp only [decide_eq_true_eq]
      unfold LEGAL_TOKENS
      refine List.mem_append.mpr (Or.inl ?_)
      refine List.mem_map.mpr ⟨c - 97, List.mem_range.mpr (by omega), by omega⟩
    · have h1 : pyLowerChar c = c + 32 := by
        unfold pyLowerChar; rw [if_pos hup]
      have h2 : pyLowerChar (c + 32) = c + 32 := by
        unfold pyLowerChar; simp only [ite_eq_right_iff]; omega
      rw [h1, h2]
      simp only [decide_eq_true_eq]
      unfold LEGAL_TOKENS
      refine List.mem_append.mpr (Or.inl ?_)
      refine List.mem_map.mpr ⟨c + 32 - 97, List.mem_range.mpr (by omega), by omega⟩
    · subst hund
      have h1 : pyLowerChar 95 = 95 := by decide
      rw [h1, h1]
      simp only [decide_eq_true_eq]
      unfold LEGAL_TOKENS
      exact List.mem_append.mpr (Or.inr (by decide))

/-- Witness for the C2 amended theorem at the concrete key `"Valid_Key"`
(accepted: letters of both cases plus underscore) evaluated concretely. -/
theorem is_key_legal_ascii_characterisation_witness :
    (∀ c ∈ pystr "Valid_Key", c < 128) ∧
      (is_key_legal (Option.some (pystr "Valid_Key")) = true ↔
        ∀ c ∈ pystr "Valid_Key",
          (97 ≤ c ∧ c ≤ 122) ∨ (65 ≤ c ∧ c ≤ 90) ∨ c = 95) :=
  ⟨by decide, is_key_legal_ascii_characterisation (pystr "Valid_Key") (by decide)⟩

/-! Theorems for claim C3. -/

/-- The error codes of the dispatch fallbacks are never 200. -/
theorem error_code_ne_200 (e : ErrT) : ¬ error_code_from_error e = 200 := by
  cases e <;> decide

/-- `_digest` yields code 200 exactly with an empty traceback, for a
command that neither forwards a `Response` nor returns a status code. -/
theorem digest_code_tb (cmd : ServerCommandM) (q : QuestionM)
    (hrsc : cmd.returns_status_code = false)
    (hnoresp : ∀ args kws rr, ¬ cmd.call args kws = Except.ok (CmdRet.resp rr)) :
    ((ServerBase._digest cmd q).code = PyVal.int 200 ↔
      (ServerBase._digest cmd q).tb = Option.none) := by
  unfold ServerBase._digest
  cases hdig : cmd.digest q with
  | error e =>
      constructor
      · intro h
        simp only [mkResponse] at h
        simp only [PyVal.int.injEq] at h
        exact absurd h (error_code_ne_200 e)
      · intro h
        simp [mkResponse] at h
  | ok rr =>
      unfold ServerCommandM.digest at hdig
      by_cases hp : cmd.is_private = true
      · rw [if_pos hp] at hdig
        cases hdig
      · rw [if_neg hp] at hdig
        cases hargs : cmd.process_args q.args q.kwargs with
        | error e =>
            simp only [hargs] at hdig
            exact Except.noConfusion hdig
        | ok ak =>
            obtain ⟨a1, a2⟩ := ak
            simp only [hargs] at hdig
            cases hcall : cmd.call a1 a2 with
            | error e =>
                simp only [hcall] at hdig
                exact Except.noConfusion hdig
            | ok ret =>
                cases ret with
                | resp r2 =>
                    exact absurd hcall (hnoresp a1 a2 r2)
                | val v =>
                    simp only [hcall, hrsc, Bool.false_eq_true, if_false,
                      Except.ok.injEq] at hdig
                    subst hdig
                    constructor
                    · intro _
                      rfl
                    · intro _
                      rfl

/-- C3 counterexample: `Response()` default-constructs with `code=0` and no
traceback (`src/core/package.py` line 131): its `tb` payload entry is empty
while its code is 0, not 200, so "code == 200 iff traceback empty" fails
already for a `Response` produced by construction. -/
theorem response_default_code_not_200 :
    (mkResponse [] PyVal.none (PyVal.int 0) Option.none).tb = Option.none ∧
    ¬ (mkResponse [] PyVal.none (PyVal.int 0) Option.none).code =
      PyVal.int 200 := by
  constructor
  · rfl
  · intro h
    simp [mkResponse] at h

/-- C3 (amended): on the server's dispatch paths the equivalence does hold:
for every `Response` the dispatcher returns — over servers whose commands
neither forward `Response` objects nor use `returns_status_code` — the code
is 200 exactly when the `tb` payload entry is empty.  (Construction with a
non-200 default code and no traceback, `returns_status_code` commands with
a non-200 second component, and forwarded `Response` objects all break the
equivalence.) -/
theorem response_code_200_iff_no_tb (srv : ServerM) (hd data : PyDict)
    (r : ResponseM)
    (hcmd : ∀ kv ∈ srv.commands, kv.2.returns_status_code = false ∧
      ∀ args kws rr, ¬ kv.2.call args kws = Except.ok (CmdRet.resp rr))
    (hr : ServerBase.digest srv hd data = Except.ok r) :
    (r.code = PyVal.int 200 ↔ r.tb = Option.none) := by
  unfold ServerBase.digest at hr
  cases hload : QuestionM.load hd data with
  | error e =>
      simp only [hload] at hr
      simp only [Except.ok.injEq] at hr
      subst hr
      constructor
      · intro h
        simp [mkResponse] at h
      · intro h
        simp [mkResponse] at h
  | ok q =>
      simp only [hload] at hr
      cases hget : ServerBase.get_command srv q.command with
      | error e =>
          simp only [hget] at hr
          cases hr
      | ok copt =>
          cases copt with
          | none =>
              simp only [hget] at hr
              simp only [Except.ok.injEq] at hr
              subst hr
              constructor
              · intro h
                simp [mkResponse] at h
              · intro h
                simp [mkResponse] at h
          | some cmd =>
              simp only [hget] at hr
              simp only [Except.ok.injEq] at hr
              subst hr
              have hmem : ∃ kv ∈ srv.commands, kv.2 = cmd := by
                cases hc : q.command with
                | str s =>
                    rw [hc] at hget
                    simp only [ServerBase.get_command] at hget
                    cases hfind : List.find? (fun kv => kv.1 = s) srv.commands with
                    | none =>
                        rw [hfind] at hget
                        simp at hget
                    | some kv =>
                        rw [hfind] at hget
                        simp at hget
                        exact ⟨kv, List.mem_of_find?_eq_some hfind, hget⟩
                | none =>
                    rw [hc] at hget
                    simp [ServerBase.get_command] at hget
                | bool b =>
                    rw [hc] at hget
                    simp [ServerBase.get_command] at hget
                | int n =>
                    rw [hc] at hget
                    simp [ServerBase.get_command] at hget
                | list xs =>
                    rw [hc] at hget
                    simp [ServerBase.get_command] at hget
                | tuple xs =>
                    rw [hc] at hget
                    simp [ServerBase.get_command] at hget
                | dict kvs =>
                    rw [hc] at hget
                    simp [ServerBase.get_command] at hget
              obtain ⟨kv, hkvmem, hkveq⟩ := hmem
              obtain ⟨hrsc, hnoresp⟩ := hcmd kv hkvmem
              rw [hkveq] at hrsc hnoresp
              exact digest_code_tb cmd _ hrsc hnoresp

/-- C3 amended-theorem witness: the dispatch of `ping` on the concrete
server, where the equivalence holds with both sides true. -/
theorem response_code_200_iff_no_tb_witness :
    ((ServerBase.digestResponse srvOk [] dataPing).code = PyVal.int 200 ↔
      (ServerBase.digestResponse srvOk [] dataPing).tb = Option.none) := by
  refine response_code_200_iff_no_tb srvOk [] dataPing _ ?_ rfl
  intro kv hkv
  simp only [srvOk, List.mem_singleton] at hkv
  subst hkv
  refine ⟨rfl, ?_⟩
  intro args kws rr h
  simp [pingCmd] at h

/-! Theorems for claim C4. -/

/-- C4 counterexample: a decoded question whose `command` entry is the
empty string loads successfully — `Question.load` does not validate the
command — and the dispatcher's failure comes from the alias lookup, so the
`Response` carries code 404 (`NOT_FOUND`), not the claimed 504
(`BAD_QUESTION`). -/
theorem empty_command_not_504 :
    QuestionM.load [] dataEmptyCmd = Except.ok qEmpty ∧
    (ServerBase.digestResponse srvOk [] dataEmptyCmd).code = PyVal.int 404 ∧
    ¬ (ServerBase.digestResponse srvOk [] dataEmptyCmd).code =
      PyVal.int 504 := by
  refine ⟨rfl, rfl, ?_⟩
  intro h
  rw [show (ServerBase.digestResponse srvOk [] dataEmptyCmd).code =
    PyVal.int 404 from rfl] at h
  simp at h

/-- C4 (amended): a received packet whose decoded question carries an empty
command string is rejected by the dispatcher with code 404 (`NOT_FOUND`),
a null response and a non-empty traceback — the 404 path of
`ServerBase.digest`, not the 504 `BAD_QUESTION` path (which fires only when
`Question.load` itself raises, e.g. when the `command` entry is absent
altogether) — provided no command was registered under the empty alias. -/
theorem empty_command_404 (srv : ServerM) (hd data : PyDict) (q : QuestionM)
    (r : ResponseM)
    (hq : QuestionM.load hd data = Except.ok q)
    (hcmd : q.command = PyVal.str [])
    (hreg : ServerBase.get_command srv (PyVal.str []) = Except.ok Option.none)
    (hr : ServerBase.digest srv hd data = Except.ok r) :
    r.code = PyVal.int 404 ∧ ¬ r.code = PyVal.int 504 ∧
      r.response = PyVal.none ∧ ¬ r.tb = Option.none := by
  unfold ServerBase.digest at hr
  simp only [hq, hcmd, hreg] at hr
  simp only [Except.ok.injEq] at hr
  subst hr
  refine ⟨rfl, ?_, rfl, ?_⟩
  · intro h
    simp [mkResponse] at h
  · intro h
    simp [mkResponse] at h

/-- C4 amended-theorem witness: the concrete server with only `ping`
registered, receiving `{'command': ''}`. -/
theorem empty_command_404_witness :
    (ServerBase.digestResponse srvOk [] dataEmptyCmd).code = PyVal.int 404 ∧
    ¬ (ServerBase.digestResponse srvOk [] dataEmptyCmd).code = PyVal.int 504 ∧
    (ServerBase.digestResponse srvOk [] dataEmptyCmd).response = PyVal.none ∧
    ¬ (ServerBase.digestResponse srvOk [] dataEmptyCmd).tb = Option.none :=
  empty_command_404 srvOk [] dataEmptyCmd qEmpty
    (ServerBase.digestResponse srvOk [] dataEmptyCmd) rfl rfl rfl rfl

/-! Theorems for claim C5. -/

/-- C5: a question that resolves to a registered command marked private is
answered with code 405 (`ACCESS_DENIED`, the code of
`ClacksCommandIsPrivateError`, which `ServerCommand.digest` raises before
touching the arguments), a null response, and a non-empty hex-stored
traceback. -/
theorem private_command_405 (srv : ServerM) (hd data : PyDict) (q : QuestionM)
    (cmd : ServerCommandM) (r : ResponseM)
    (hq : QuestionM.load hd data = Except.ok q)
    (hget : ServerBase.get_command srv q.command = Except.ok (some cmd))
    (hpriv : cmd.is_private = true)
    (hr : ServerBase.digest srv hd data = Except.ok r) :
    r.code = PyVal.int 405 ∧ r.response = PyVal.none ∧
      ∃ t, r.tb = some t ∧ ¬ t = [] := by
  unfold ServerBase.digest at hr
  simp only [hq, hget] at hr
  simp only [Except.ok.injEq] at hr
  subst hr
  unfold ServerBase._digest ServerCommandM.digest
  rw [if_pos hpriv]
  exact ⟨rfl, rfl, tbStore (format_exc ErrT.clacksPrivate), rfl, by decide⟩

/-- C5 witness: the concrete server with the private `secret` command,
called with `{'command': 'secret'}`. -/
theorem private_command_405_witness :
    (ServerBase.digestResponse srvSecret [] dataSecret).code = PyVal.int 405 ∧
    (ServerBase.digestResponse srvSecret [] dataSecret).response = PyVal.none ∧
    ∃ t, (ServerBase.digestResponse srvSecret [] dataSecret).tb = some t ∧
      ¬ t = [] :=
  private_command_405 srvSecret [] dataSecret qSecret secretCmd
    (ServerBase.digestResponse srvSecret [] dataSecret) rfl rfl rfl rfl

/-! Theorems for claim C6. -/

/-- C6 counterexample: a `returns_status_code` command whose processed
result is not a tuple or list raises
`ClacksCommandUnexpectedReturnValueError`, whose return code is 621
(`INVALID_COMMAND_RETURN_TYPE`) — not the claimed bad-response error 505
(`BAD_RESPONSE`). -/
theorem status_code_non_tuple_621 :
    statusCmd.digest qPing = Except.error ErrT.clacksUnexpectedReturn ∧
    error_code_from_error ErrT.clacksUnexpectedReturn = 621 ∧
    ¬ error_code_from_error ErrT.clacksUnexpectedReturn = 505 :=
  ⟨rfl, rfl, by decide⟩

/-- C6 (amended): for a command marked `returns_status_code`, a two-element
tuple `(value, code)` is split — `response.response` is the result-processed
`value` and `response.code` is `code`, with no integer check on `code` —
while a non-tuple/list result raises the 621 error (not a 505 bad-response
error), and a tuple of the wrong arity fails the unpack with `ValueError`
(code 600). -/
theorem returns_status_code_semantics (cmd : ServerCommandM) (q : QuestionM)
    (args : List PyVal) (kws : PyDict) (ret : PyVal)
    (hpriv : cmd.is_private = false)
    (hrsc : cmd.returns_status_code = true)
    (hargs : cmd.process_args q.args q.kwargs = Except.ok (args, kws))
    (hcall : cmd.call args kws = Except.ok (CmdRet.val ret)) :
    (∀ v c, ret = PyVal.tuple [v, c] →
      cmd.digest q = Except.ok { (mkResponse [] (cmd.process_result v) c
        Option.none) with accept_encoding := q.accept_encoding }) ∧
    (seqItems? ret = Option.none →
      cmd.digest q = Except.error ErrT.clacksUnexpectedReturn ∧
      error_code_from_error ErrT.clacksUnexpectedReturn = 621) := by
  unfold ServerCommandM.digest
  rw [if_neg (by rw [hpriv]; exact Bool.false_ne_true)]
  constructor
  · intro v c hret
    subst hret
    simp only [hargs, hcall, hrsc, if_true, seqItems?]
  · intro hseq
    simp only [hargs, hcall, hrsc, if_true, hseq]
    exact ⟨trivial, rfl⟩

/-- C6 witness: the concrete `teapotCmd` returning `('done', 418)` is split
into response `'done'` and code 418, and the concrete `statusCmd` returning
the bare integer 42 raises the 621 error. -/
theorem returns_status_code_semantics_witness :
    teapotCmd.digest qPing = Except.ok { (mkResponse []
      (teapotCmd.process_result (PyVal.str (pystr "done"))) (PyVal.int 418)
      Option.none) with accept_encoding := qPing.accept_encoding } ∧
    (statusCmd.digest qPing = Except.error ErrT.clacksUnexpectedReturn ∧
      error_code_from_error ErrT.clacksUnexpectedReturn = 621) :=
  ⟨(returns_status_code_semantics teapotCmd qPing [] [] (PyVal.tuple
      [PyVal.str (pystr "done"), PyVal.int 418]) rfl rfl rfl rfl).1
      (PyVal.str (pystr "done")) (PyVal.int 418) rfl,
    (returns_status_code_semantics statusCmd qPing [] [] (PyVal.int 42)
      rfl rfl rfl rfl).2 rfl⟩

/-! Theorems for claim C7. -/

/-- C7 counterexample: with no adapters, `ping` is answered with code 200
and value 42; with an adapter whose `server_pre_digest` raises, the same
transaction is answered by `__respond`'s fallback — code 600, null
response — not the same `Response` it would otherwise have produced, so
the adapter exception was not swallowed. -/
theorem adapter_exception_changes_response :
    (ServerBase.respondFinal srvOk [] dataPing).code = PyVal.int 200 ∧
    (ServerBase.respondFinal srvOk [] dataPing).response = PyVal.int 42 ∧
    (ServerBase.respondFinal srvBad [] dataPing).code = PyVal.int 600 ∧
    (ServerBase.respondFinal srvBad [] dataPing).response = PyVal.none :=
  ⟨rfl, rfl, rfl, rfl⟩

/-- C7 (amended): an adapter exception at a server hook point is neither
swallowed nor fatal to the transaction, but it replaces the outcome: a
raising `server_pre_digest` (or `server_post_digest`) escapes `_respond`
and `__respond` answers with the fallback error `Response` instead of the
digest's; only when no server hook raises does the digest's own `Response`
reach the handler; and a raising `server_pre_add_to_queue` propagates out
of `add_to_queue`, so the transaction is never queued at all. -/
theorem adapter_exception_not_swallowed (srv : ServerM) (hd data : PyDict)
    (st : QueueState) (t : PyDict × PyDict) :
    (∀ e, runHooks (srv.adapters.map (fun a => a.server_pre_digest)) = some e →
      ServerBase.respondFinal srv hd data = respondFallback hd e) ∧
    (runHooks (srv.adapters.map (fun a => a.server_pre_digest)) = Option.none →
      runHooks (srv.adapters.map (fun a => a.server_post_digest)) = Option.none →
      ServerBase.respondFinal srv hd data =
        ServerBase.digestResponse srv hd data) ∧
    (∀ e, runHooks (srv.adapters.map (fun a => a.server_pre_add_to_queue)) =
        some e →
      ServerBase.add_to_queue srv st t = Except.error e) := by
  refine ⟨?_, ?_, ?_⟩
  · intro e he
    unfold ServerBase.respondFinal ServerBase._respond
    simp only [he]
  · intro hpre hpost
    unfold ServerBase.respondFinal ServerBase._respond
    simp only [hpre, hpost]
  · intro e he
    unfold ServerBase.add_to_queue
    simp only [he]

/-- C7 amended-theorem witness: the raising adapter of `srvBad` diverts the
`ping` transaction to the fallback, the adapter-free `srvOk` answers with
its digest's response, and `add_to_queue` on `srvBad` refuses the item. -/
theorem adapter_exception_not_swallowed_witness :
    ServerBase.respondFinal srvBad [] dataPing =
      respondFallback [] ErrT.generic ∧
    ServerBase.respondFinal srvOk [] dataPing =
      ServerBase.digestResponse srvOk [] dataPing ∧
    ServerBase.add_to_queue srvBad { queue := [], sent := [] } ([], dataPing) =
      Except.error ErrT.generic :=
  ⟨(adapter_exception_not_swallowed srvBad [] dataPing
      { queue := [], sent := [] } ([], dataPing)).1 ErrT.generic rfl,
    (adapter_exception_not_swallowed srvOk [] dataPing
      { queue := [], sent := [] } ([], dataPing)).2.1 rfl rfl,
    (adapter_exception_not_swallowed srvBad [] dataPing
      { queue := [], sent := [] } ([], dataPing)).2.2 ErrT.generic rfl⟩

/-! Theorems for claim C8. -/

/-- `get_outgoing_header_data` only succeeds when the merged header's
`Content-Length` equals the expected body length. -/
theorem get_outgoing_content_length (m : MarshallerM) (p : ResponseM)
    (expected : Nat) (hd : PyDict)
    (h : get_outgoing_header_data m p expected = Except.ok hd) :
    dictGet hd (pystr "Content-Length") = some (PyVal.int expected) := by
  unfold get_outgoing_header_data at h
  cases hjh : JSONHandler.header_data_of m p with
  | none =>
      simp only [hjh] at h
      exact Except.noConfusion h
  | some extra =>
      simp only [hjh] at h
      cases hcl : dictGet (dictUpdate (dictUpdate [] p.header_data) extra)
          (pystr "Content-Length") with
      | none =>
          simp only [hcl] at h
          exact Except.noConfusion h
      | some v =>
          cases v with
          | int n =>
              simp only [hcl] at h
              by_cases hn : n = (expected : Int)
              · rw [if_pos hn] at h
                simp only [Except.ok.injEq] at h
                subst h
                rw [hcl, hn]
              · rw [if_neg hn] at h
                exact Except.noConfusion h
          | none =>
              simp only [hcl] at h
              exact Except.noConfusion h
          | bool b =>
              simp only [hcl] at h
              exact Except.noConfusion h
          | str s =>
              simp only [hcl] at h
              exact Except.noConfusion h
          | list xs =>
              simp only [hcl] at h
              exact Except.noConfusion h
          | tuple xs =>
              simp only [hcl] at h
              exact Except.noConfusion h
          | dict kvs =>
              simp only [hcl] at h
              exact Except.noConfusion h

/-- C8: every buffer the JSON handler compiles and writes splits as
`header ++ delimiter ++ body`, where the encoded header is the JSON text of
a dict whose `Content-Length` entry equals the byte length of the body that
follows the delimiter.  (`get_outgoing_header_data` raises — and nothing is
written — whenever the freshly-marshalled length disagrees with the body.) -/
theorem content_length_matches_body (m : MarshallerM) (p : ResponseM)
    (buf : PyBytes) (h : compile_buffer m p = Except.ok buf) :
    ∃ hd body, buf = utf8Encode (jsonDumps (PyVal.dict hd)) ++
        HEADER_DELIMITER ++ body ∧
      dictGet hd (pystr "Content-Length") = some (PyVal.int body.length) := by
  unfold compile_buffer at h
  generalize hbd : (match m.encode p with
    | some bs => if bs = [] then m.encode badContentFallback else some bs
    | Option.none => m.encode badContentFallback) = bd at h
  cases bd with
  | none => exact Except.noConfusion h
  | some body =>
      cases henc : JSONHandler.encode_response_header m p body.length with
      | error e =>
          simp only [henc] at h
          exact Except.noConfusion h
      | ok header =>
          simp only [henc, Except.ok.injEq] at h
          subst h
          unfold JSONHandler.encode_response_header at henc
          cases hg : get_outgoing_header_data m p body.length with
          | error e =>
              simp only [hg] at henc
              exact Except.noConfusion henc
          | ok hd =>
              simp only [hg, Except.ok.injEq] at henc
              subst henc
              exact ⟨hd, body, rfl, get_outgoing_content_length m p _ hd hg⟩

/-- C8 witness: the concrete JSON-marshalled response `42` compiles to a
buffer whose header declares the body's exact length. -/
theorem content_length_matches_body_witness :
    ∃ hd body, buf42 = utf8Encode (jsonDumps (PyVal.dict hd)) ++
        HEADER_DELIMITER ++ body ∧
      dictGet hd (pystr "Content-Length") = some (PyVal.int body.length) :=
  content_length_matches_body jsonMarshaller resp42 buf42 (by rfl)

/-! Theorems for claim C9. -/

/-- A hook loop over adapters that all return normally raises nothing. -/
theorem runHooks_none_of (hooks : List (Option ErrT))
    (h : ∀ x ∈ hooks, x = Option.none) : runHooks hooks = Option.none := by
  induction hooks with
  | nil => rfl
  | cons a l ih =>
      have ha := h a (List.mem_cons_self _ _)
      unfold runHooks at ih ⊢
      rw [List.findSome?_cons, ha]
      exact ih (fun x hx => h x (List.mem_cons_of_mem _ hx))

/-- Running the serial queue appends the responses in queue order. -/
theorem run_queue_sent (srv : ServerM)
    (hhook : runHooks (srv.adapters.map
      (fun a => a.server_post_remove_from_queue)) = Option.none) :
    ∀ (qs : List (PyDict × PyDict)) (n : Nat) (sent : List ResponseM),
      qs.length ≤ n →
      ServerBase.run_queue srv n { queue := qs, sent := sent } =
        Except.ok { queue := []
                    sent := sent ++ qs.map
                      (fun t => ServerBase.respondFinal srv t.1 t.2) } := by
  intro qs
  induction qs with
  | nil =>
      intro n sent _
      induction n with
      | zero => simp [ServerBase.run_queue]
      | succ m ihn => simpa [ServerBase.run_queue, ServerBase.tick_queue]
          using ihn
  | cons t qs2 ih =>
      intro n sent hn
      cases n with
      | zero => simp at hn
      | succ m =>
          have hstep : ServerBase.run_queue srv (m + 1)
              { queue := t :: qs2, sent := sent } =
              ServerBase.run_queue srv m
                { queue := qs2
                  sent := sent ++ [ServerBase.respondFinal srv t.1 t.2] } := by
            show (match ServerBase.tick_queue srv
                { queue := t :: qs2, sent := sent } with
              | Except.error e => Except.error e
              | Except.ok st2 => ServerBase.run_queue srv m st2) = _
            rw [show ServerBase.tick_queue srv
                { queue := t :: qs2, sent := sent } =
              (match runHooks (srv.adapters.map
                  (fun a => a.server_post_remove_from_queue)) with
                | some e => Except.error e
                | Option.none => Except.ok
                    { queue := qs2
                      sent := sent ++ [ServerBase.respondFinal srv t.1 t.2] })
              from rfl]
            rw [hhook]
          rw [hstep]
          have h2 := ih m (sent ++ [ServerBase.respondFinal srv t.1 t.2])
            (by simp only [List.length_cons] at hn; omega)
          rw [h2]
          simp

/-- C9: under the default serial mode, a queue of transactions received in
a given order is answered in exactly that order — after enough ticks of the
single worker, the sent list is the per-transaction response list in queue
order; in particular the response to an earlier question is written before
the response to any later one.  (The hook hypothesis keeps the unwrapped
`server_post_remove_from_queue` adapter loop from aborting a tick.) -/
theorem serial_queue_fifo (srv : ServerM) (qs : List (PyDict × PyDict))
    (n : Nat) (hn : qs.length ≤ n)
    (hhook : ∀ a ∈ srv.adapters,
      a.server_post_remove_from_queue = Option.none) :
    ServerBase.run_queue srv n { queue := qs, sent := [] } =
      Except.ok { queue := []
                  sent := qs.map
                    (fun t => ServerBase.respondFinal srv t.1 t.2) } := by
  have hh : runHooks (srv.adapters.map
      (fun a => a.server_post_remove_from_queue)) = Option.none := by
    apply runHooks_none_of
    intro x hx
    rw [List.mem_map] at hx
    obtain ⟨a, ha, rfl⟩ := hx
    exact hhook a ha
  have := run_queue_sent srv hh qs n [] hn
  simpa using this

/-- C9 witness: two questions queued in order on the concrete server are
answered in that order. -/
theorem serial_queue_fifo_witness :
    ServerBase.run_queue srvOk 2
      { queue := [([], dataPing), ([], dataEmptyCmd)], sent := [] } =
      Except.ok { queue := []
                  sent := [([], dataPing), ([], dataEmptyCmd)].map
                    (fun t => ServerBase.respondFinal srvOk t.1 t.2) } :=
  serial_queue_fifo srvOk [([], dataPing), ([], dataEmptyCmd)] 2
    (by decide) (by intro a ha; simp [srvOk] at ha)

/-! Theorems for claim C10. -/

/-- C10: `SimpleRequestHandler.encode_question_header` evaluates
`payload.is_valid` right after its isinstance check, and likewise
`encode_response_header`; no `Package` class (`Package`, `Question`,
`Response`) defines an `is_valid` attribute or property, so the lookup
raises `AttributeError` for every package and content length, and the
simple request handler cannot encode any outgoing header. -/
theorem simple_handler_cannot_encode (q : QuestionM) (r : ResponseM)
    (n1 n2 : Nat) :
    SimpleRequestHandler.encode_question_header q n1 =
      Except.error "AttributeError" ∧
    SimpleRequestHandler.encode_response_header r n2 =
      Except.error "AttributeError" ∧
    ¬ "is_valid" ∈ packageAttrs ∧ ¬ "is_valid" ∈ questionAttrs ∧
    ¬ "is_valid" ∈ responseAttrs :=
  ⟨rfl, rfl, by decide, by decide, by decide⟩

end Clacks
